import Mathlib

/-!
# Verification of the content-fidelity comparison engine (backend/server.js)

Shallow embedding of the pure computational core of `src/backend/server.js`:
text normalisation, word-overlap similarity scoring, UTM link stripping and
link comparison, the retry wrapper, the redirect-following fetch loop (over
scripted responses), paragraph alignment and the report assembler.  Strings
are modelled as Lean `String`/`List Char`; JS numbers appearing in scores as
`ℚ`; JS `undefined`-able fields as `Option`.  JS regular expressions are
transcribed either as dedicated scanners (with the same leftmost-match,
greedy-backtracking semantics) or as values of a small regex datatype.
Recursions that jump over a matched span use a fuel parameter initialised to
the input length, so that every definition reduces in the kernel; the fuel
is never exhausted since each step consumes at least one character.
-/

attribute [local semireducible] Rat.mul Rat.add Rat.sub Rat.inv Rat.ofScientific

set_option maxRecDepth 100000

namespace NM

/-- The JS `\s` character class (also the set removed by `String.prototype.trim`):
ASCII whitespace, NBSP, the Unicode space separators, line/paragraph separator
and the BOM. -/
def jsWs (c : Char) : Bool :=
  c = ' ' || c = '\t' || c = '\n' || c = '\r' || c = '\x0b' || c = '\x0c' ||
  c = ' ' || c = ' ' || (' ' ≤ c && c ≤ ' ') ||
  c = ' ' || c = ' ' || c = ' ' || c = ' ' ||
  c = '　' || c = '﻿'

/-- The JS `\w` character class: ASCII letters, digits and underscore
(code points 97–122, 65–90, 48–57 and 95). -/
def jsWord (c : Char) : Bool :=
  (97 ≤ c.toNat && c.toNat ≤ 122) || (65 ≤ c.toNat && c.toNat ≤ 90) ||
  (48 ≤ c.toNat && c.toNat ≤ 57) || c.toNat == 95

/-- The characters matched by `[\r\n]`. -/
def isCrLf (c : Char) : Bool := c = '\r' || c = '\n'

/-- Auxiliary scanner for `tagRest`: remainder after the next `'>'`. -/
def tagRestAux : List Char → Option (List Char)
  | [] => none
  | c :: rest => if c = '>' then some rest else tagRestAux rest

/-- Matching `[^>]+>` at the head of the list (the tail of the tag regex
`<[^>]+>` after its `<`): at least one non-`'>'` character followed by `'>'`;
returns the remainder after the `'>'`. -/
def tagRest : List Char → Option (List Char)
  | [] => none
  | c :: rest => if c = '>' then none else tagRestAux rest

/-- `text.replace(/<[^>]+>/g, " ")`, fuelled: each tag-like span is replaced by
a single space; an unmatched `'<'` is kept literally. -/
def stripTagsF : Nat → List Char → List Char
  | _, [] => []
  | 0, l => l
  | fuel + 1, c :: rest =>
    if c = '<' then
      match tagRest rest with
      | some rest' => ' ' :: stripTagsF fuel rest'
      | none => c :: stripTagsF fuel rest
    else c :: stripTagsF fuel rest

/-- `text.replace(/<[^>]+>/g, " ")`. -/
def stripTags (l : List Char) : List Char := stripTagsF l.length l

/-- The two curly-quote replacements
`.replace(/[‘’]/g, "'").replace(/[“”]/g, '"')`
fused into one character map (they act on disjoint characters). -/
def quoteMap (c : Char) : Char :=
  if c = '‘' || c = '’' then '\'' else
  if c = '“' || c = '”' then '"' else c

/-- `replace(/X+/g, " ")` for a single-character class `X`, with a flag telling
whether we are inside a run: every maximal run of characters satisfying `p`
becomes one space. -/
def collapseRunsAux (p : Char → Bool) : Bool → List Char → List Char
  | _, [] => []
  | inRun, c :: rest =>
    if p c then
      if inRun then collapseRunsAux p true rest
      else ' ' :: collapseRunsAux p true rest
    else c :: collapseRunsAux p false rest

/-- `replace(/X+/g, " ")` for a single-character class `X`. -/
def collapseRuns (p : Char → Bool) (l : List Char) : List Char :=
  collapseRunsAux p false l

/-- Line terminators, which the JS `.` metacharacter does not match. -/
def jsDotExcluded (c : Char) : Bool := c = '\n' || c = '\r' || c = ' ' || c = ' '

/-- Matching `.*?[\)\]]` at the head of the list (the lazy tail of the
parenthetical regex `[\(\[].*?[\)\]]`): skips to the nearest `')'`/`']'`,
failing at a line terminator (which `.` cannot match); returns the remainder
after the closing bracket. -/
def bracketRest : List Char → Option (List Char)
  | [] => none
  | c :: rest =>
    if c = ')' || c = ']' then some rest
    else if jsDotExcluded c then none
    else bracketRest rest

/-- `text.replace(/[\(\[].*?[\)\]]/g, "")`, fuelled: each lazily-matched
bracketed span is deleted; an opening bracket with no closer (before a line
terminator) is kept literally. -/
def removeBracketsF : Nat → List Char → List Char
  | _, [] => []
  | 0, l => l
  | fuel + 1, c :: rest =>
    if c = '(' || c = '[' then
      match bracketRest rest with
      | some rest' => removeBracketsF fuel rest'
      | none => c :: removeBracketsF fuel rest
    else c :: removeBracketsF fuel rest

/-- `text.replace(/[\(\[].*?[\)\]]/g, "")`. -/
def removeBrackets (l : List Char) : List Char := removeBracketsF l.length l

/-- `String.prototype.trim`: drop `jsWs` characters from both ends. -/
def trimWs (l : List Char) : List Char :=
  ((l.dropWhile jsWs).reverse.dropWhile jsWs).reverse

/-- The `normalize` pipeline of `server.js` on character lists, step by step in
source order: strip tags, unify curly quotes, collapse `[\r\n]+` runs, collapse
`\s+` runs, delete characters outside `[\w\s]`, delete bracketed asides,
lowercase, trim.  (`toLowerCase` is modelled on ASCII, which is exact here: at
this point of the pipeline every character is an ASCII word character or a
space.) -/
def normalizeL (l : List Char) : List Char :=
  trimWs (List.map Char.toLower (removeBrackets
    ((collapseRuns jsWs (collapseRuns isCrLf (List.map quoteMap (stripTags l)))).filter
      (fun c => jsWord c || jsWs c))))

/-- `normalize` from `server.js`. -/
def normalize (s : String) : String :=
  (normalizeL s.toList).asString

example : normalize "Hello, World!" = "hello world" := by decide
example : normalize "a ! b" = "a  b" := by decide
example : normalize "<b>Hi</b> there" = "hi there" := by decide
example : normalize (normalize "a ! b") = "a b" := by decide

/-- `String.prototype.toLowerCase`, modelled on ASCII (exact for every string
produced by `normalize`, whose characters are ASCII word characters and
spaces). -/
def toLowerStr (s : String) : String := (s.toList.map Char.toLower).asString

/-- Accumulating scanner for `splitSpaces`; `acc` holds the current piece
reversed. -/
def splitSpacesAux : List Char → List Char → List String
  | [], acc => [acc.reverse.asString]
  | c :: rest, acc =>
    if c = ' ' then acc.reverse.asString :: splitSpacesAux rest []
    else splitSpacesAux rest (c :: acc)

/-- JS `s.split(" ")`: cut at every space character; adjacent separators and
separators at the ends produce empty pieces, and the empty string gives
`[""]`. -/
def splitSpaces (s : String) : List String := splitSpacesAux s.toList []

/-- `normalize(t).split(" ").filter(Boolean)`: the token list both sides of the
similarity scorer are reduced to.  `filter(Boolean)` drops the empty strings. -/
def splitWords (t : String) : List String :=
  (splitSpaces (normalize t)).filter (fun w => w ≠ "")

/-- The object returned by `getSimilarityScore`.  The early return for an empty
token list carries only `score`, `matchedWords`, `unmatchedWords`, `extraWords`
and `totalWords`; the fields that are absent from it (`undefined` in JS) are
modelled as `none`. -/
structure SimResult where
  score : ℚ
  precision : Option ℚ
  «recall» : Option ℚ
  matchedWords : List String
  unmatchedWords : List String
  extraWords : List String
  totalWords : Nat
  totalEmailWords : Option Nat
  deriving Repr, DecidableEq

/-- `getSimilarityScore` from `server.js`: tokenize both texts through
`normalize`, match the first text's tokens against the second's by membership
(the JS `forEach` building `matchedWords`/`unmatchedWords` is the pair of
order-preserving filters), and derive precision, recall and F1 as rationals. -/
def getSimilarityScore (textA textB : String) : SimResult :=
  let wordsA := splitWords textA
  let wordsB := splitWords textB
  if wordsA.length = 0 then
    { score := 0, precision := none, «recall» := none,
      matchedWords := [], unmatchedWords := wordsA, extraWords := [],
      totalWords := 0, totalEmailWords := none }
  else
    let matchedWords := wordsA.filter (fun w => wordsB.contains w)
    let unmatchedWords := wordsA.filter (fun w => !(wordsB.contains w))
    let wordsASet := wordsA.map toLowerStr
    let extraWords := wordsB.filter (fun w => !(wordsASet.contains (toLowerStr w)))
    let precision : ℚ := if wordsA.length > 0 then (matchedWords.length : ℚ) / wordsA.length else 0
    let rcl : ℚ := if wordsB.length > 0 then (matchedWords.length : ℚ) / wordsB.length else 0
    let f1 : ℚ := if precision + rcl > 0 then 2 * precision * rcl / (precision + rcl) else 0
    { score := f1, precision := some precision, «recall» := some rcl,
      matchedWords := matchedWords, unmatchedWords := unmatchedWords,
      extraWords := extraWords, totalWords := wordsA.length,
      totalEmailWords := some wordsB.length }

example : (getSimilarityScore "x x" "x y").score = 1 := by decide
example : (getSimilarityScore "x y" "x x").score = 1/2 := by decide
example : (getSimilarityScore "a" "b c").score = 0 := by decide

/-- Matching is membership-based, so when both token lists are duplicate-free
the two directions find the same number of common tokens. -/
theorem length_filter_contains_comm {A B : List String}
    (hA : A.Nodup) (hB : B.Nodup) :
    (A.filter (fun w => B.contains w)).length = (B.filter (fun w => A.contains w)).length := by
  have h1 : ∀ (X Y : List String), X.Nodup →
      (X.filter (fun w => Y.contains w)).length = (X.toFinset ∩ Y.toFinset).card := by
    intro X Y hX
    have hfil : (X.filter (fun w => Y.contains w)).Nodup := hX.filter _
    rw [← List.toFinset_card_of_nodup hfil, List.toFinset_filter]
    congr 1
    rw [← Finset.filter_mem_eq_inter]
    apply Finset.filter_congr
    intro x _
    simp [List.contains, List.elem_eq_mem]
  rw [h1 A B hA, h1 B A hB, Finset.inter_comm]

/-- **C6, counterexample.**  The claim fails on the code in both halves.  With
duplicated tokens the precision/recall pairs of `score(A,B)` and `score(B,A)`
are not swaps of each other: for `A = "x x"`, `B = "x y"` the forward precision
is `1` while the reverse recall is `1/2`, and the two f1 values differ even
though both token lists have length 2.  And equality of the f1 values does not
force equal token counts: disjoint vocabularies (`"a"` vs `"b c"`) give f1 `0`
in both directions with token counts 1 ≠ 2. -/
theorem getSimilarityScore_swap_cex :
    ((getSimilarityScore "x x" "x y").precision = some 1 ∧
      (getSimilarityScore "x y" "x x").«recall» = some (1/2) ∧
      (getSimilarityScore "x x" "x y").score ≠ (getSimilarityScore "x y" "x x").score ∧
      (splitWords "x x").length = (splitWords "x y").length) ∧
    ((getSimilarityScore "a" "b c").score = (getSimilarityScore "b c" "a").score ∧
      (splitWords "a").length ≠ (splitWords "b c").length) := by
  constructor
  · exact ⟨by decide, by decide, by decide, by decide⟩
  · exact ⟨by decide, by decide⟩

/-- **C6, amended.**  For texts whose normalised token lists are nonempty and
duplicate-free, `score(A,B)` and `score(B,A)` yield swapped precision/recall
pairs, and consequently the same f1 always — regardless of whether the token
counts agree (f1, the harmonic mean, is symmetric in precision and recall). -/
theorem getSimilarityScore_swap (A B : String)
    (hA : (splitWords A).Nodup) (hB : (splitWords B).Nodup)
    (hA0 : splitWords A ≠ []) (hB0 : splitWords B ≠ []) :
    (getSimilarityScore A B).precision = (getSimilarityScore B A).«recall» ∧
    (getSimilarityScore A B).«recall» = (getSimilarityScore B A).precision ∧
    (getSimilarityScore A B).score = (getSimilarityScore B A).score := by
  have hAl : ¬ (splitWords A).length = 0 := fun h => hA0 (List.length_eq_zero.mp h)
  have hBl : ¬ (splitWords B).length = 0 := fun h => hB0 (List.length_eq_zero.mp h)
  have hApos : (0:ℕ) < (splitWords A).length := Nat.pos_of_ne_zero hAl
  have hBpos : (0:ℕ) < (splitWords B).length := Nat.pos_of_ne_zero hBl
  have hm : ((splitWords A).filter (fun w => (splitWords B).contains w)).length =
      ((splitWords B).filter (fun w => (splitWords A).contains w)).length :=
    length_filter_contains_comm hA hB
  unfold getSimilarityScore
  rw [if_neg hAl, if_neg hBl]
  simp only [if_pos hApos, if_pos hBpos, hm]
  refine ⟨trivial, trivial, ?_⟩
  set p : ℚ := (((splitWords B).filter (fun w => (splitWords A).contains w)).length : ℚ) /
    ((splitWords A).length : ℚ) with hp
  set r : ℚ := (((splitWords B).filter (fun w => (splitWords A).contains w)).length : ℚ) /
    ((splitWords B).length : ℚ) with hr
  rw [add_comm r p]
  by_cases hpr : p + r > 0
  · rw [if_pos hpr, if_pos hpr]; ring
  · rw [if_neg hpr, if_neg hpr]

/-- Characters that can survive a `normalize` pass: the space, or an ASCII
word character that is not an uppercase letter. -/
def canonChar (c : Char) : Bool :=
  c == ' ' || (jsWord c && !(65 ≤ c.toNat && c.toNat ≤ 90))

theorem quoteMap_eq_self {c : Char} (h : canonChar c = true) : quoteMap c = c := by
  by_cases h1 : c = '‘'
  · subst h1; exact absurd h (by decide)
  by_cases h2 : c = '’'
  · subst h2; exact absurd h (by decide)
  by_cases h3 : c = '“'
  · subst h3; exact absurd h (by decide)
  by_cases h4 : c = '”'
  · subst h4; exact absurd h (by decide)
  simp [quoteMap, h1, h2, h3, h4]

theorem isCrLf_eq_false {c : Char} (h : canonChar c = true) : isCrLf c = false := by
  by_cases h1 : c = '\r'
  · subst h1; exact absurd h (by decide)
  by_cases h2 : c = '\n'
  · subst h2; exact absurd h (by decide)
  simp [isCrLf, h1, h2]

theorem canonChar_ne_special {c : Char} (h : canonChar c = true) :
    c ≠ '<' ∧ c ≠ '(' ∧ c ≠ '[' := by
  refine ⟨?_, ?_, ?_⟩ <;> intro h1 <;> subst h1 <;> exact absurd h (by decide)

theorem canonChar_word_or_space {c : Char} (h : canonChar c = true) :
    c = ' ' ∨ jsWord c = true := by
  simp only [canonChar, Bool.or_eq_true, beq_iff_eq, Bool.and_eq_true] at h
  rcases h with h | ⟨h, _⟩
  · exact Or.inl h
  · exact Or.inr h

theorem canonChar_not_upper {c : Char} (h : canonChar c = true) :
    c = ' ' ∨ ¬(65 ≤ c.toNat ∧ c.toNat ≤ 90) := by
  simp only [canonChar, Bool.or_eq_true, beq_iff_eq, Bool.and_eq_true,
    Bool.not_eq_true', Bool.and_eq_false_iff, decide_eq_false_iff_not] at h
  rcases h with h | ⟨_, h⟩
  · exact Or.inl h
  · right; rcases h with h | h
    · exact fun hc => h hc.1
    · exact fun hc => h hc.2

theorem toLower_eq_self {c : Char} (h : canonChar c = true) : Char.toLower c = c := by
  rcases canonChar_not_upper h with h1 | h1
  · subst h1; decide
  · simp only [Char.toLower]
    rw [if_neg]
    intro hc
    exact h1 ⟨hc.1, hc.2⟩

theorem canonChar_toLower {c : Char} (h : c = ' ' ∨ jsWord c = true) :
    canonChar (Char.toLower c) = true := by
  rcases h with h | h
  · subst h; decide
  · by_cases hU : 65 ≤ c.toNat ∧ c.toNat ≤ 90
    · simp only [Char.toLower]
      rw [if_pos ⟨hU.1, hU.2⟩]
      obtain ⟨hlo, hhi⟩ := hU
      set n := c.toNat with hn
      interval_cases n <;> decide
    · simp only [Char.toLower]
      rw [if_neg (fun hc => hU ⟨hc.1, hc.2⟩)]
      simp only [canonChar, Bool.or_eq_true, beq_iff_eq, Bool.and_eq_true, h,
        true_and, Bool.not_eq_true', Bool.and_eq_false_iff, decide_eq_false_iff_not]
      right
      omega

theorem mem_collapseRunsAux {p : Char → Bool} :
    ∀ {b : Bool} {l : List Char} {c : Char}, c ∈ collapseRunsAux p b l →
      c = ' ' ∨ (c ∈ l ∧ p c = false) := by
  intro b l
  induction l generalizing b with
  | nil => intro c h; simp [collapseRunsAux] at h
  | cons d rest ih =>
    intro c h
    simp only [collapseRunsAux] at h
    by_cases hd : p d = true
    · rw [if_pos hd] at h
      cases b with
      | true =>
        rcases ih h with h1 | ⟨h1, h2⟩
        · exact Or.inl h1
        · exact Or.inr ⟨List.mem_cons_of_mem _ h1, h2⟩
      | false =>
        rcases List.mem_cons.mp h with h1 | h1
        · exact Or.inl h1
        · rcases ih h1 with h2 | ⟨h2, h3⟩
          · exact Or.inl h2
          · exact Or.inr ⟨List.mem_cons_of_mem _ h2, h3⟩
    · rw [if_neg hd] at h
      rcases List.mem_cons.mp h with h1 | h1
      · subst h1; exact Or.inr ⟨List.mem_cons_self _ _, Bool.not_eq_true _ ▸ hd⟩
      · rcases ih h1 with h2 | ⟨h2, h3⟩
        · exact Or.inl h2
        · exact Or.inr ⟨List.mem_cons_of_mem _ h2, h3⟩

theorem collapseRunsAux_eq_self {p : Char → Bool} :
    ∀ {b : Bool} {l : List Char}, (∀ c ∈ l, p c = false) → collapseRunsAux p b l = l := by
  intro b l
  induction l generalizing b with
  | nil => intro _; rfl
  | cons d rest ih =>
    intro h
    have hd : p d = false := h d (List.mem_cons_self _ _)
    simp only [collapseRunsAux, hd]
    simp only [Bool.false_eq_true, if_false]
    rw [ih (fun c hc => h c (List.mem_cons_of_mem _ hc))]

theorem stripTagsF_eq_self :
    ∀ (n : Nat) {l : List Char}, (∀ c ∈ l, c ≠ '<') → stripTagsF n l = l := by
  intro n
  induction n with
  | zero => intro l _; cases l <;> rfl
  | succ m ih =>
    intro l h
    cases l with
    | nil => rfl
    | cons c rest =>
      have hc : c ≠ '<' := h c (List.mem_cons_self _ _)
      simp only [stripTagsF, if_neg hc]
      rw [ih (fun d hd => h d (List.mem_cons_of_mem _ hd))]

theorem mem_of_bracketRest :
    ∀ {l l' : List Char}, bracketRest l = some l' → ∀ {c}, c ∈ l' → c ∈ l := by
  intro l
  induction l with
  | nil => intro l' h; simp [bracketRest] at h
  | cons d rest ih =>
    intro l' h c hc
    simp only [bracketRest] at h
    by_cases hd : d = ')' ∨ d = ']'
    · rw [if_pos (by simpa using hd)] at h
      cases h
      exact List.mem_cons_of_mem _ hc
    · rw [if_neg (by simpa using hd)] at h
      by_cases he : jsDotExcluded d = true
      · rw [if_pos he] at h; cases h
      · rw [if_neg he] at h
        exact List.mem_cons_of_mem _ (ih h hc)

theorem mem_removeBracketsF :
    ∀ {n : Nat} {l : List Char} {c : Char}, c ∈ removeBracketsF n l → c ∈ l := by
  intro n
  induction n with
  | zero => intro l c h; cases l <;> exact h
  | succ m ih =>
    intro l c h
    cases l with
    | nil => exact h
    | cons d rest =>
      simp only [removeBracketsF] at h
      by_cases hd : d = '(' ∨ d = '['
      · rw [if_pos (by simpa using hd)] at h
        cases hbr : bracketRest rest with
        | some rest' =>
          rw [hbr] at h
          exact List.mem_cons_of_mem _ (mem_of_bracketRest hbr (ih h))
        | none =>
          rw [hbr] at h
          rcases List.mem_cons.mp h with h1 | h1
          · subst h1; exact List.mem_cons_self _ _
          · exact List.mem_cons_of_mem _ (ih h1)
      · rw [if_neg (by simpa using hd)] at h
        rcases List.mem_cons.mp h with h1 | h1
        · subst h1; exact List.mem_cons_self _ _
        · exact List.mem_cons_of_mem _ (ih h1)

theorem removeBracketsF_eq_self :
    ∀ (n : Nat) {l : List Char}, (∀ c ∈ l, c ≠ '(' ∧ c ≠ '[') → removeBracketsF n l = l := by
  intro n
  induction n with
  | zero => intro l _; cases l <;> rfl
  | succ m ih =>
    intro l h
    cases l with
    | nil => rfl
    | cons c rest =>
      have hc := h c (List.mem_cons_self _ _)
      have hb : ¬((decide (c = '(') || decide (c = '[')) = true) := by
        simp [hc.1, hc.2]
      simp only [removeBracketsF]
      rw [if_neg hb, ih (fun d hd => h d (List.mem_cons_of_mem _ hd))]

theorem map_eq_self_of {f : Char → Char} :
    ∀ {l : List Char}, (∀ c ∈ l, f c = c) → l.map f = l := by
  intro l
  induction l with
  | nil => intro _; rfl
  | cons c rest ih =>
    intro h
    simp only [List.map_cons, h c (List.mem_cons_self _ _),
      ih (fun d hd => h d (List.mem_cons_of_mem _ hd))]

theorem head?_dropWhile_false {p : Char → Bool} {l : List Char} {c : Char}
    (h : (l.dropWhile p).head? = some c) : p c = false := by
  have hn := List.head?_dropWhile_not p l
  rw [h] at hn
  exact hn

theorem dropWhile_eq_self_of_head {p : Char → Bool} {l : List Char}
    (h : ∀ c, l.head? = some c → p c = false) : l.dropWhile p = l := by
  cases l with
  | nil => rfl
  | cons c rest =>
    rw [List.dropWhile_cons_of_neg]
    simp [h c rfl]

theorem trimWs_eq_self {l : List Char}
    (h1 : ∀ c, l.head? = some c → jsWs c = false)
    (h2 : ∀ c, l.getLast? = some c → jsWs c = false) :
    trimWs l = l := by
  unfold trimWs
  rw [dropWhile_eq_self_of_head h1]
  rw [dropWhile_eq_self_of_head (fun c hc => h2 c (by rwa [List.head?_reverse] at hc))]
  exact l.reverse_reverse

theorem mem_trimWs {l : List Char} {c : Char} (h : c ∈ trimWs l) : c ∈ l := by
  unfold trimWs at h
  rw [List.mem_reverse] at h
  have h2 := List.dropWhile_subset (l := (l.dropWhile jsWs).reverse) jsWs h
  rw [List.mem_reverse] at h2
  exact List.dropWhile_subset jsWs h2

theorem head?_trimWs_not_ws {l : List Char} {c : Char}
    (h : (trimWs l).head? = some c) : jsWs c = false := by
  unfold trimWs at h
  rw [List.head?_reverse] at h
  obtain ⟨t, ht⟩ := List.dropWhile_suffix (l := (l.dropWhile jsWs).reverse) jsWs
  have hW : ((l.dropWhile jsWs).reverse).getLast? = some c := by
    rw [← ht, List.getLast?_append, h]
    rfl
  rw [List.getLast?_reverse] at hW
  exact head?_dropWhile_false hW

theorem getLast?_trimWs_not_ws {l : List Char} {c : Char}
    (h : (trimWs l).getLast? = some c) : jsWs c = false := by
  unfold trimWs at h
  rw [List.getLast?_reverse] at h
  exact head?_dropWhile_false h

theorem head?_collapseRunsAux {p : Char → Bool} {b : Bool} {l : List Char} {c : Char}
    (hl : l.head? = some c) (hc : p c = false) :
    (collapseRunsAux p b l).head? = some c := by
  cases l with
  | nil => simp at hl
  | cons d rest =>
    cases hl
    simp only [collapseRunsAux, hc]
    simp

theorem collapseRunsAux_cons (p : Char → Bool) (b : Bool) (d : Char) (rest : List Char) :
    collapseRunsAux p b (d :: rest) =
      if p d then
        (if b then collapseRunsAux p true rest else ' ' :: collapseRunsAux p true rest)
      else d :: collapseRunsAux p false rest := rfl

theorem getLast?_collapseRunsAux {p : Char → Bool} :
    ∀ {b : Bool} {l : List Char} {c : Char}, l.getLast? = some c → p c = false →
      (collapseRunsAux p b l).getLast? = some c := by
  intro b l
  induction l generalizing b with
  | nil => intro c h _; simp at h
  | cons d rest ih =>
    intro c h hc
    cases rest with
    | nil =>
      have hdc : d = c := by simpa using h
      subst hdc
      rw [collapseRunsAux_cons, if_neg (by simp [hc])]
      rfl
    | cons e rest' =>
      rw [List.getLast?_cons_cons] at h
      have hM : ∀ b' : Bool, (collapseRunsAux p b' (e :: rest')).getLast? = some c :=
        fun b' => ih h hc
      rw [collapseRunsAux_cons]
      by_cases hd : p d = true
      · rw [if_pos hd]
        cases b with
        | true => simpa using hM true
        | false =>
          simp only [Bool.false_eq_true, if_false]
          rcases hMne : collapseRunsAux p true (e :: rest') with _ | ⟨m, M'⟩
          · exact absurd (hM true) (by rw [hMne]; simp)
          · rw [List.getLast?_cons_cons, ← hMne]
            exact hM true
      · rw [if_neg hd]
        rcases hMne : collapseRunsAux p false (e :: rest') with _ | ⟨m, M'⟩
        · exact absurd (hM false) (by rw [hMne]; simp)
        · rw [List.getLast?_cons_cons, ← hMne]
          exact hM false

/-- Every character of a `normalize` result is a space or a lowercase-or-digit
word character. -/
theorem canonChar_mem_normalizeL {l : List Char} {c : Char}
    (h : c ∈ normalizeL l) : canonChar c = true := by
  unfold normalizeL at h
  have h1 := mem_trimWs h
  rw [List.mem_map] at h1
  obtain ⟨d, hd, rfl⟩ := h1
  unfold removeBrackets at hd
  have h2 := mem_removeBracketsF hd
  rw [List.mem_filter] at h2
  obtain ⟨h3, hP⟩ := h2
  apply canonChar_toLower
  unfold collapseRuns at h3
  rcases mem_collapseRunsAux h3 with h4 | ⟨_, h5⟩
  · exact Or.inl h4
  · right
    simp only [Bool.or_eq_true] at hP
    rcases hP with hP | hP
    · exact hP
    · rw [h5] at hP; cases hP

/-- On a list of canonical characters whose ends are not spaces, a `normalize`
pass reduces to collapsing the space runs. -/
theorem normalizeL_canon {y : List Char}
    (hcanon : ∀ c ∈ y, canonChar c = true)
    (hh : ∀ c, y.head? = some c → jsWs c = false)
    (hl : ∀ c, y.getLast? = some c → jsWs c = false) :
    normalizeL y = collapseRuns jsWs y := by
  have hK : ∀ c ∈ collapseRuns jsWs y, canonChar c = true := by
    intro c hc
    rcases mem_collapseRunsAux hc with h | ⟨h1, _⟩
    · subst h; decide
    · exact hcanon c h1
  have hP : (collapseRuns jsWs y).filter (fun c => jsWord c || jsWs c) =
      collapseRuns jsWs y := by
    apply List.filter_eq_self.mpr
    intro c hc
    rcases canonChar_word_or_space (hK c hc) with h | h
    · subst h; decide
    · simp [h]
  unfold normalizeL
  rw [show stripTags y = y from
    stripTagsF_eq_self _ (fun c hc => (canonChar_ne_special (hcanon c hc)).1)]
  rw [map_eq_self_of (fun c hc => quoteMap_eq_self (hcanon c hc))]
  rw [show collapseRuns isCrLf y = y from
    collapseRunsAux_eq_self (fun c hc => isCrLf_eq_false (hcanon c hc))]
  rw [hP]
  rw [show removeBrackets (collapseRuns jsWs y) = collapseRuns jsWs y from
    removeBracketsF_eq_self _ (fun c hc => (canonChar_ne_special (hK c hc)).2)]
  rw [map_eq_self_of (fun c hc => toLower_eq_self (hK c hc))]
  apply trimWs_eq_self
  · intro c hc
    cases y with
    | nil => simp [collapseRuns, collapseRunsAux] at hc
    | cons d rest =>
      have hd : jsWs d = false := hh d rfl
      have hhead := head?_collapseRunsAux (b := false) (l := d :: rest) rfl hd
      rw [show collapseRuns jsWs (d :: rest) = collapseRunsAux jsWs false (d :: rest)
        from rfl, hhead] at hc
      cases hc
      exact hd
  · intro c hc
    cases hy : y.getLast? with
    | none =>
      rw [List.getLast?_eq_none_iff.mp hy] at hc
      simp [collapseRuns, collapseRunsAux] at hc
    | some d =>
      have hd : jsWs d = false := hl d hy
      have hlast := getLast?_collapseRunsAux (b := false) hy hd
      rw [show collapseRuns jsWs y = collapseRunsAux jsWs false y from rfl, hlast] at hc
      cases hc
      exact hd

/-- **C9, counterexample.**  `normalize` is not idempotent: on `"a ! b"`
punctuation removal leaves the two spaces that surrounded the `!` adjacent
(`normalize "a ! b" = "a  b"`), and a second pass collapses them
(`normalize "a  b" = "a b"`). -/
theorem normalize_not_idempotent_cex :
    normalize (normalize "a ! b") ≠ normalize "a ! b" := by decide

/-- **C9, amended.**  A second `normalize` pass only collapses the space runs
that punctuation removal may have left behind: for every input string `x`,
`normalize (normalize x)` equals `normalize x` with every run of adjacent
spaces collapsed to one space; `normalize` is therefore idempotent exactly on
the inputs whose normalised form has no adjacent spaces (the collapse is the
identity there), but not in general. -/
theorem normalize_normalize (x : String) :
    normalize (normalize x) = (collapseRuns jsWs (normalize x).toList).asString := by
  show (normalizeL ((normalizeL x.toList).asString).toList).asString = _
  have hy : ((normalizeL x.toList).asString).toList = normalizeL x.toList := rfl
  rw [hy]
  have := normalizeL_canon (y := normalizeL x.toList)
    (fun c hc => canonChar_mem_normalizeL hc)
    (fun c hc => head?_trimWs_not_ws hc)
    (fun c hc => getLast?_trimWs_not_ws hc)
  rw [this]
  rfl

/-- Witness for `getSimilarityScore_swap` at `A = "a b"`, `B = "b c"`. -/
theorem getSimilarityScore_swap_witness :
    (getSimilarityScore "a b" "b c").precision = (getSimilarityScore "b c" "a b").«recall» ∧
    (getSimilarityScore "a b" "b c").«recall» = (getSimilarityScore "b c" "a b").precision ∧
    (getSimilarityScore "a b" "b c").score = (getSimilarityScore "b c" "a b").score :=
  getSimilarityScore_swap "a b" "b c" (by decide) (by decide) (by decide) (by decide)

/-! ## UTM helpers and the link audit -/

/-- `String.prototype.trim` on strings. -/
def trimWsStr (s : String) : String := (trimWs s.toList).asString

/-- Split a character list at every occurrence of `sep` (the pieces, in
order; adjacent separators give empty pieces). -/
def splitCharAux (sep : Char) : List Char → List Char → List (List Char)
  | [], acc => [acc.reverse]
  | c :: rest, acc =>
    if c = sep then acc.reverse :: splitCharAux sep rest []
    else splitCharAux sep rest (c :: acc)

/-- Split a character list just before the first occurrence of any character
in `seps`, keeping the separator with the remainder. -/
def splitBeforeAny (seps : List Char) : List Char → (List Char × List Char)
  | [] => ([], [])
  | c :: rest =>
    if seps.contains c then ([], c :: rest)
    else
      let p := splitBeforeAny seps rest
      (c :: p.1, p.2)

/-- The components of a parsed absolute `http(s)` URL, as exposed by the
WHATWG `URL` class used by `stripUtm`.  `port` is the serialised port digits,
`none` when absent or equal to the scheme default (the class reports the
default port as empty and omits it from `origin`). -/
structure URLParts where
  scheme : String
  host : String
  port : Option String
  pathname : String
  query : Option String
  fragment : Option String
  deriving Repr, DecidableEq

/-- `url.origin`: scheme, host and any explicit non-default port. -/
def URLParts.origin (u : URLParts) : String :=
  u.scheme ++ "://" ++ u.host ++ (match u.port with | none => "" | some p => ":" ++ p)

/-- Numeric value of a digit string. -/
def digitsToNat (ds : List Char) : Nat :=
  ds.foldl (fun acc c => 10 * acc + (c.toNat - 48)) 0

/-- Model of `new URL(href)` for absolute `http(s)` URLs: scheme and host are
lowercased, a default port (80/443) is elided, an empty path serialises as
`"/"`, and query and fragment are split off.  The model performs no
percent-encoding, dot-segment or punycode normalisation and treats userinfo,
non-`http(s)` schemes and invalid ports as parse failures; it is exact for the
plain absolute URLs exercised here, and every other href takes the same
catch branch the JS code takes on a parse failure. -/
def parseURL (href : String) : Option URLParts :=
  let cs := href.toList
  let sp := splitBeforeAny [':'] cs
  match sp.2 with
  | ':' :: '/' :: '/' :: rest2 =>
    let scheme := (sp.1.map Char.toLower).asString
    if scheme = "http" ∨ scheme = "https" then
      let auth := splitBeforeAny ['/', '?', '#'] rest2
      let hostPort := splitBeforeAny [':'] auth.1
      if hostPort.1 = [] ∨ hostPort.1.contains '@' ∨ hostPort.1.contains ' ' then none
      else
        let host := (hostPort.1.map Char.toLower).asString
        let port? : Option (Option String) :=
          match hostPort.2 with
          | [] => some none
          | ':' :: ds =>
            if ds = [] then some none
            else if ds.all Char.isDigit && digitsToNat ds < 65536 then
              let pstr := ds.asString
              if (scheme = "http" ∧ pstr = "80") ∨ (scheme = "https" ∧ pstr = "443") then
                some none
              else some (some pstr)
            else none
          | _ => none
        match port? with
        | none => none
        | some port =>
          let path := splitBeforeAny ['?', '#'] auth.2
          let pathname := if path.1 = [] then "/" else path.1.asString
          let qf : Option String × List Char :=
            match path.2 with
            | '?' :: qs =>
              let q := splitBeforeAny ['#'] qs
              (some q.1.asString, q.2)
            | r => (none, r)
          let fragment : Option String :=
            match qf.2 with
            | '#' :: fs => some fs.asString
            | _ => none
          some { scheme := scheme, host := host, port := port,
                 pathname := pathname, query := qf.1, fragment := fragment }
    else none
  | _ => none

example : parseURL "https://a.com/x?utm_source=y" =
    some { scheme := "https", host := "a.com", port := none, pathname := "/x",
           query := some "utm_source=y", fragment := none } := by decide
example : parseURL "not a url" = none := by decide
example : (parseURL "HTTP://A.com:8080/p/q?a=1#f").map URLParts.origin =
    some "http://a.com:8080" := by decide

/-- Does the key start with `utm`, case-insensitively
(`key.toLowerCase().startsWith("utm")`)? -/
def lowerStartsWithUtm (k : String) : Bool :=
  match k.toList.map Char.toLower with
  | 'u' :: 't' :: 'm' :: _ => true
  | _ => false

/-- The `key=value` pairs of a query string, as iterated by `URLSearchParams`:
split on `&`, key before the first `=`; empty pieces are skipped. -/
def queryParams (q : String) : List (String × String) :=
  ((splitCharAux '&' q.toList []).filter (fun piece => piece ≠ [])).map (fun piece =>
    let kv := splitBeforeAny ['='] piece
    match kv.2 with
    | '=' :: v => (kv.1.asString, v.asString)
    | _ => (kv.1.asString, ""))

/-- `stripUtm` from `server.js`.  When `new URL(href)` succeeds the code
deletes the `utm*`-keyed entries from `url.searchParams` (the `_params`
binding below) but then returns `url.origin + url.pathname`, a value that
never includes the query string, so the deletion cannot influence the result;
on parse failure the part before the first `?` is trimmed and returned. -/
def stripUtm (href : String) : String :=
  match parseURL href with
  | some url =>
    let _params := (queryParams (url.query.getD "")).filter
      (fun kv => !(lowerStartsWithUtm kv.1))
    url.origin ++ url.pathname
  | none => trimWsStr ((splitCharAux '?' href.toList []).headD []).asString

example : stripUtm "https://a.com/x?utm_source=y" = "https://a.com/x" := by decide
example : stripUtm "https://a.com/x?page=2" = "https://a.com/x" := by decide
example : stripUtm "relative/path?page=2 " = "relative/path" := by decide

/-- Scanner for the regex `/utm[_=-]/i`. -/
def hasUtmAux : List Char → Bool
  | c1 :: rest@(c2 :: c3 :: c4 :: _) =>
    (Char.toLower c1 = 'u' && Char.toLower c2 = 't' && Char.toLower c3 = 'm' &&
      (c4 = '_' || c4 = '=' || c4 = '-')) || hasUtmAux rest
  | _ => false

/-- `hasUtm` from `server.js`: `/utm[_=-]/i.test(href)`. -/
def hasUtm (href : String) : Bool := hasUtmAux href.toList

/-- A `{text, href}` link, as extracted from the document or the page. -/
structure LinkInfo where
  text : String
  href : String
  deriving Repr, DecidableEq

/-- One row of the link-audit report built by `compareLinks`. -/
structure LinkReportEntry where
  text : String
  docHref : String
  foundInEmail : String
  utmInDoc : String
  deriving Repr, DecidableEq

/-- The body of the `docLinks.forEach` loop of `compareLinks`: push a report
row, and push the link onto `missing` when its stripped href is not among the
stripped page hrefs. -/
def compareLinksStep (emailMap : List String)
    (acc : List LinkReportEntry × List LinkInfo) (dl : LinkInfo) :
    List LinkReportEntry × List LinkInfo :=
  let docStripped := stripUtm dl.href
  let found := emailMap.contains docStripped
  let entry : LinkReportEntry :=
    { text := dl.text, docHref := dl.href,
      foundInEmail := if found then "YES" else "NO",
      utmInDoc := if hasUtm dl.href then "YES" else "NO" }
  (acc.1 ++ [entry], if found then acc.2 else acc.2 ++ [dl])

/-- `compareLinks` from `server.js`: strip every link on both sides with
`stripUtm`, then for each document link record a report row and, when its
stripped href is not among the stripped page hrefs, add it to `missing`.
The JS `forEach` pushing into `report`/`missing` is the fold over
`compareLinksStep`. -/
def compareLinks (docLinks emailLinks : List LinkInfo) :
    List LinkReportEntry × List LinkInfo :=
  docLinks.foldl (compareLinksStep (emailLinks.map (fun l => stripUtm l.href))) ([], [])

/-- The link-target reduction exactly as claim C7 words it.  Modelled from the
spec: remove only the case-insensitive `utm*`-keyed query parameters of a
parseable href, keeping every other query parameter; strip the whole query
string only when URL parsing fails. -/
def stripUtmClaimed (href : String) : String :=
  match parseURL href with
  | some url =>
    let kept := (queryParams (url.query.getD "")).filter
      (fun kv => !(lowerStartsWithUtm kv.1))
    url.origin ++ url.pathname ++
      (match kept with
       | [] => ""
       | _ => "?" ++ String.intercalate "&" (kept.map (fun kv => kv.1 ++ "=" ++ kv.2)))
  | none => trimWsStr ((splitCharAux '?' href.toList []).headD []).asString

/-- The report row the (amended) link-audit description predicts for one
document link, given the stripped page-link targets. -/
def linkRow (emailStripped : List String) (dl : LinkInfo) : LinkReportEntry :=
  { text := dl.text, docHref := dl.href,
    foundInEmail := if emailStripped.contains (stripUtm dl.href) then "YES" else "NO",
    utmInDoc := if hasUtm dl.href then "YES" else "NO" }

theorem compareLinks_foldl (es : List String) :
    ∀ (docLinks : List LinkInfo) (acc : List LinkReportEntry × List LinkInfo),
      docLinks.foldl (compareLinksStep es) acc =
        (acc.1 ++ docLinks.map (linkRow es),
          acc.2 ++ docLinks.filter (fun dl => !(es.contains (stripUtm dl.href)))) := by
  intro docLinks
  induction docLinks with
  | nil => intro acc; simp
  | cons dl rest ih =>
    intro acc
    rw [List.foldl_cons, ih]
    by_cases hf : stripUtm dl.href ∈ es
    · simp [compareLinksStep, linkRow, hf, List.filter_cons]
    · simp [compareLinksStep, linkRow, hf, List.filter_cons]

/-- **C7, counterexample.**  The claim's stripping rule ("remove only the
case-insensitive `utm*`-keyed query parameters of a parseable href") does not
describe the code: for the parseable document link
`https://a.com/x?page=2` — whose only query parameter is not UTM-keyed — the
claimed rule keeps `?page=2`, making it differ from page link
`https://a.com/x`, yet `compareLinks` reports the link as found, because
`stripUtm` returns `origin + pathname` and thereby discards every query
parameter. -/
theorem compareLinks_utm_only_cex :
    ((compareLinks [{ text := "p", href := "https://a.com/x?page=2" }]
        [{ text := "p", href := "https://a.com/x" }]).1.map
      (fun e => e.foundInEmail) = ["YES"]) ∧
    stripUtmClaimed "https://a.com/x?page=2" ≠ stripUtmClaimed "https://a.com/x" :=
  ⟨by decide, by decide⟩

/-- **C7, amended.**  The link audit reports a document link as found exactly
when, after reducing a parseable href to `origin + pathname` (discarding the
whole query string and fragment, not only the `utm*` keys; unparseable hrefs
are cut at the first `?` and trimmed), it equals by exact string comparison
some page link reduced the same way; unmatched document links are collected,
in order, as missing.  In particular document link
`https://a.com/x?utm_source=y` with page link `https://a.com/x` is reported
found. -/
theorem compareLinks_spec (docLinks emailLinks : List LinkInfo) :
    (compareLinks docLinks emailLinks =
      (docLinks.map (linkRow (emailLinks.map (fun l => stripUtm l.href))),
        docLinks.filter (fun dl =>
          !((emailLinks.map (fun l => stripUtm l.href)).contains (stripUtm dl.href))))) ∧
    ((compareLinks [{ text := "s", href := "https://a.com/x?utm_source=y" }]
        [{ text := "s", href := "https://a.com/x" }]).1.map
      (fun e => e.foundInEmail) = ["YES"]) := by
  constructor
  · unfold compareLinks
    rw [compareLinks_foldl]
    simp
  · decide

/-- **C10.**  For every href our URL model parses, `stripUtm` returns
`origin + pathname`, discarding every query parameter (not only the
`utm*`-keyed ones) and any fragment; consequently two parseable links that
differ only in their query strings or fragments strip to the same string and
`compareLinks` reports the document link as found. -/
theorem stripUtm_origin_pathname (a b : String) (ua ub : URLParts)
    (ha : parseURL a = some ua) (hb : parseURL b = some ub)
    (ho : ua.origin = ub.origin) (hp : ua.pathname = ub.pathname) :
    stripUtm a = ua.origin ++ ua.pathname ∧
    stripUtm b = ub.origin ++ ub.pathname ∧
    stripUtm a = stripUtm b ∧
    ∀ t₁ t₂ : String,
      ((compareLinks [{ text := t₁, href := a }] [{ text := t₂, href := b }]).1.map
        (fun e => e.foundInEmail)) = ["YES"] := by
  have hsa : stripUtm a = ua.origin ++ ua.pathname := by
    unfold stripUtm
    rw [ha]
  have hsb : stripUtm b = ub.origin ++ ub.pathname := by
    unfold stripUtm
    rw [hb]
  have heq : stripUtm a = stripUtm b := by rw [hsa, hsb, ho, hp]
  refine ⟨hsa, hsb, heq, ?_⟩
  intro t₁ t₂
  simp [compareLinks, compareLinksStep, heq]

/-- Witness for `stripUtm_origin_pathname`:
`https://a.com/x?page=2#sec` and `https://a.com/x` differ only in
(non-UTM) query and fragment, and the document link is reported found. -/
theorem stripUtm_origin_pathname_witness :
    stripUtm "https://a.com/x?page=2#sec" = "https://a.com/x" ∧
    ((compareLinks [{ text := "t", href := "https://a.com/x?page=2#sec" }]
        [{ text := "u", href := "https://a.com/x" }]).1.map
      (fun e => e.foundInEmail)) = ["YES"] := by
  have h := stripUtm_origin_pathname "https://a.com/x?page=2#sec" "https://a.com/x"
    { scheme := "https", host := "a.com", port := none, pathname := "/x",
      query := some "page=2", fragment := some "sec" }
    { scheme := "https", host := "a.com", port := none, pathname := "/x",
      query := none, fragment := none }
    (by decide) (by decide) (by decide) (by decide)
  refine ⟨?_, h.2.2.2 "t" "u"⟩
  rw [h.1]
  decide

/-! ## The retry wrapper -/

/-- Prefix test on character lists. -/
def startsWithL : List Char → List Char → Bool
  | [], _ => true
  | _ :: _, [] => false
  | p :: ps, c :: cs => p = c && startsWithL ps cs

/-- Contiguous-substring scanner for `includesStr`. -/
def includesLAux (pat : List Char) : List Char → Bool
  | [] => pat.isEmpty
  | c :: rest => startsWithL pat (c :: rest) || includesLAux pat rest

/-- `String.prototype.includes`. -/
def includesStr (s pat : String) : Bool := includesLAux pat.toList s.toList

/-- Decidable equality for `Except` results, used to evaluate the model on
concrete scripts. -/
instance exceptDecEq {ε α : Type} [DecidableEq ε] [DecidableEq α] :
    DecidableEq (Except ε α) := fun x y =>
  match x, y with
  | Except.ok a, Except.ok b =>
    if h : a = b then isTrue (by rw [h]) else isFalse (by intro hc; cases hc; exact h rfl)
  | Except.error a, Except.error b =>
    if h : a = b then isTrue (by rw [h]) else isFalse (by intro hc; cases hc; exact h rfl)
  | Except.ok _, Except.error _ => isFalse (by intro hc; cases hc)
  | Except.error _, Except.ok _ => isFalse (by intro hc; cases hc)

/-- A JS error value as `withRetry` classifies it: the optional `code`
property, the message, and the status of an attached HTTP response when one is
present (`error.response`). -/
structure JsError where
  code : Option String
  message : String
  responseStatus : Option Nat
  deriving Repr, DecidableEq

/-- The transient-failure classification inside `withRetry`'s catch block:
connection reset/aborted, timeout, DNS failure codes, a message mentioning
`timeout` or `socket hang up`, or an attached response with a 5xx (or larger)
status. -/
def isRetryable (e : JsError) : Bool :=
  e.code == some "ECONNRESET" || e.code == some "ECONNABORTED" ||
  e.code == some "ETIMEDOUT" || e.code == some "ENOTFOUND" ||
  e.code == some "EAI_AGAIN" ||
  includesStr e.message "timeout" || includesStr e.message "socket hang up" ||
  (match e.responseStatus with
   | some s => decide (500 ≤ s)
   | none => false)

/-- The `for (attempt = 1; attempt <= retries; attempt++)` loop of `withRetry`,
with the remaining number of attempts as structural fuel (`fuel` is
`retries - attempt + 1` at every call, so the fuel-exhausted case — the final
`throw lastError`, unreachable when the loop is entered — is never taken for
`1 ≤ retries`).  The result pairs the outcome with the list of backoff delays
slept, in order. -/
def withRetryAux {α : Type} (attempts : Nat → Except JsError α)
    (retries baseDelay : Nat) : Nat → Nat → Except JsError α × List Nat
  | _attempt, 0 =>
    (Except.error { code := none, message := "undefined", responseStatus := none }, [])
  | attempt, left + 1 =>
    match attempts attempt with
    | Except.ok v => (Except.ok v, [])
    | Except.error e =>
      if !(isRetryable e) || attempt = retries then (Except.error e, [])
      else
        let delay := baseDelay * 2 ^ (attempt - 1)
        let r := withRetryAux attempts retries baseDelay (attempt + 1) left
        (r.1, delay :: r.2)

/-- `withRetry` from `server.js`, over a script of per-attempt outcomes
(attempt numbers start at 1, as in the JS loop). -/
def withRetry {α : Type} (attempts : Nat → Except JsError α)
    (retries baseDelay : Nat) : Except JsError α × List Nat :=
  withRetryAux attempts retries baseDelay 1 retries

/-- `getEmailContent` from `server.js`: the whole multi-hop fetch wrapped in
`withRetry` with `retries = 3` and `baseDelay = 2000`; the fetch itself is the
scripted outcome function. -/
def getEmailContent {α : Type} (attempts : Nat → Except JsError α) :
    Except JsError α × List Nat :=
  withRetry attempts 3 2000

/-- Backoff delays are always an initial segment of the doubling sequence
`baseDelay * 2 ^ i`. -/
theorem withRetryAux_delays {α : Type} (attempts : Nat → Except JsError α)
    (retries baseDelay : Nat) :
    ∀ (fuel attempt : Nat), 1 ≤ attempt →
      ∃ n, (withRetryAux attempts retries baseDelay attempt fuel).2 =
        (List.range n).map (fun i => baseDelay * 2 ^ (attempt - 1 + i)) := by
  intro fuel
  induction fuel with
  | zero => intro attempt _; exact ⟨0, rfl⟩
  | succ left ih =>
    intro attempt hatt
    simp only [withRetryAux]
    cases hone : attempts attempt with
    | ok v => exact ⟨0, rfl⟩
    | error e =>
      dsimp only
      by_cases hstop : (!(isRetryable e) || attempt = retries) = true
      · rw [if_pos hstop]
        exact ⟨0, rfl⟩
      · rw [if_neg hstop]
        obtain ⟨n, hn⟩ := ih (attempt + 1) (by omega)
        refine ⟨n + 1, ?_⟩
        rw [List.range_succ_eq_map, List.map_cons, List.map_map]
        simp only [hn]
        rw [List.cons_eq_cons]
        constructor
        · rw [Nat.add_zero]
        · apply List.map_congr_left
          intro i _
          simp only [Function.comp_apply, Nat.succ_eq_add_one]
          have harith : attempt + 1 - 1 + i = attempt - 1 + (i + 1) := by omega
          rw [harith]

/-- **C4.**  The retry wrapper behaviour of `getEmailContent`: a first-attempt
success returns immediately with no delays; a non-transient first failure is
rethrown immediately with no retry; two transient failures followed by a
success return the success after exactly the two backoff delays 2000 ms and
4000 ms (each strictly greater than the previous); three transient failures
exhaust the three attempts and surface the last error; and whatever the
script, the delays slept are an initial segment of the doubling sequence
`2000 * 2 ^ i`. -/
theorem getEmailContent_retry_spec {α : Type} (attempts : Nat → Except JsError α) :
    (∀ v, attempts 1 = Except.ok v →
      getEmailContent attempts = (Except.ok v, [])) ∧
    (∀ e, attempts 1 = Except.error e → isRetryable e = false →
      getEmailContent attempts = (Except.error e, [])) ∧
    (∀ e₁ e₂ v, attempts 1 = Except.error e₁ → isRetryable e₁ = true →
      attempts 2 = Except.error e₂ → isRetryable e₂ = true →
      attempts 3 = Except.ok v →
      getEmailContent attempts = (Except.ok v, [2000, 4000]) ∧ 2000 < 4000) ∧
    (∀ e₁ e₂ e₃, attempts 1 = Except.error e₁ → isRetryable e₁ = true →
      attempts 2 = Except.error e₂ → isRetryable e₂ = true →
      attempts 3 = Except.error e₃ →
      getEmailContent attempts = (Except.error e₃, [2000, 4000])) ∧
    (∃ n, (getEmailContent attempts).2 =
      (List.range n).map (fun i => 2000 * 2 ^ i)) := by
  refine ⟨?_, ?_, ?_, ?_, ?_⟩
  · intro v h1
    simp [getEmailContent, withRetry, withRetryAux, h1]
  · intro e h1 hr
    simp [getEmailContent, withRetry, withRetryAux, h1, hr]
  · intro e₁ e₂ v h1 hr1 h2 hr2 h3
    refine ⟨?_, by norm_num⟩
    simp [getEmailContent, withRetry, withRetryAux, h1, hr1, h2, hr2, h3]
  · intro e₁ e₂ e₃ h1 hr1 h2 hr2 h3
    simp [getEmailContent, withRetry, withRetryAux, h1, hr1, h2, hr2, h3]
  · obtain ⟨n, hn⟩ := withRetryAux_delays attempts 3 2000 3 1 (by omega)
    refine ⟨n, ?_⟩
    simpa using hn

/-- A simulated axios timeout error. -/
def timeoutError : JsError :=
  { code := some "ETIMEDOUT", message := "timeout of 45000ms exceeded",
    responseStatus := none }

/-- A simulated axios 404 response error. -/
def notFoundError : JsError :=
  { code := none, message := "Request failed with status code 404",
    responseStatus := some 404 }

/-- A fetch script that times out twice and succeeds on the third attempt. -/
def timeoutTwiceScript : Nat → Except JsError Nat
  | 3 => Except.ok 42
  | _ => Except.error timeoutError

/-- A fetch script that fails immediately with a 404 response. -/
def notFoundScript : Nat → Except JsError Nat
  | _ => Except.error notFoundError

/-- Witness for `getEmailContent_retry_spec`: the timeout-timeout-success
script returns the success with delays `[2000, 4000]`, and the 404 script is
rethrown immediately with no delay. -/
theorem getEmailContent_retry_spec_witness :
    (getEmailContent timeoutTwiceScript = (Except.ok 42, [2000, 4000]) ∧ 2000 < 4000) ∧
    getEmailContent notFoundScript = (Except.error notFoundError, []) := by
  constructor
  · exact (getEmailContent_retry_spec timeoutTwiceScript).2.2.1
      timeoutError timeoutError 42 rfl (by decide) rfl (by decide) rfl
  · exact (getEmailContent_retry_spec notFoundScript).2.1
      notFoundError rfl (by decide)

/-! ## Body-scan redirect patterns

The four redirect regexes of `_fetchEmailContent` are transcribed into a small
regex language: empty, single-character class, sequence, alternative, and star
over a character class (every star in these patterns ranges over a character
class).  The matcher enumerates remainders in JS backtracking preference
order — greedy stars longest-first, left alternative first — and the search
scans positions left to right, so the first capture it returns is exactly the
one `String.prototype.match` produces. -/

inductive RE : Type
  | eps : RE
  | cls : (Char → Bool) → RE
  | seq : RE → RE → RE
  | alt : RE → RE → RE
  | starCls : (Char → Bool) → RE

/-- Remainders after dropping `0..k` leading characters satisfying `p`,
longest drop first (greedy preference order). -/
def greedyDrops (p : Char → Bool) : List Char → List (List Char)
  | [] => [[]]
  | c :: rest =>
    (if p c then greedyDrops p rest else []) ++ [c :: rest]

/-- All ways to match `r` at the head of `s`, as the list of remainders in
backtracking preference order. -/
def reMatch : RE → List Char → List (List Char)
  | RE.eps, s => [s]
  | RE.cls _, [] => []
  | RE.cls p, c :: s => if p c then [s] else []
  | RE.seq a b, s => (reMatch a s).flatMap (reMatch b)
  | RE.alt a b, s => reMatch a s ++ reMatch b s
  | RE.starCls p, s => greedyDrops p s

/-- Greedy split for a `( cls+ )` capture group: pairs of (captured nonempty
prefix, remainder), longest capture first. -/
def capSplits (p : Char → Bool) : List Char → List (List Char × List Char)
  | [] => []
  | c :: rest =>
    if p c then
      (capSplits p rest).map (fun q => (c :: q.1, q.2)) ++ [([c], rest)]
    else []

/-- Try `pre ( capCls+ ) post` at the head of `s`; first capture in
backtracking preference order. -/
def patMatchAt (pre : RE) (capCls : Char → Bool) (post : RE) (s : List Char) :
    Option (List Char) :=
  (reMatch pre s).findSome? (fun rem1 =>
    (capSplits capCls rem1).findSome? (fun q =>
      if (reMatch post q.2).isEmpty then none else some q.1))

/-- Leftmost match of `pre ( capCls+ ) post`, scanning positions left to
right as `String.prototype.match` does. -/
def patSearch (pre : RE) (capCls : Char → Bool) (post : RE) : List Char → Option String
  | [] => (patMatchAt pre capCls post []).map List.asString
  | c :: rest =>
    match patMatchAt pre capCls post (c :: rest) with
    | some cap => some cap.asString
    | none => patSearch pre capCls post rest

/-- Case-insensitive literal character (all four regexes carry the `i` flag). -/
def chi (c : Char) : RE := RE.cls (fun d => Char.toLower d = Char.toLower c)

/-- Case-insensitive literal string. -/
def liti (s : String) : RE := (s.toList.map chi).foldr RE.seq RE.eps

/-- Sequence of fragments. -/
def seqs (rs : List RE) : RE := rs.foldr RE.seq RE.eps

/-- `['"]`. -/
def quoteCls (c : Char) : Bool := c = '\'' || c = '"'

/-- `[^'"]`. -/
def notQuoteCls (c : Char) : Bool := !(quoteCls c)

/-- `\s*`. -/
def wsStar : RE := RE.starCls jsWs

/-- `X?` (greedy: with-`X` preferred). -/
def opt (r : RE) : RE := RE.alt r RE.eps

/-- Pattern 1, `/var\s+redirecturl\s*=\s*['"]([^'"]+)['"]/i`:
`var redirecturl = '…'`. -/
def jsRedirectMatch (body : String) : Option String :=
  patSearch
    (seqs [liti "var", RE.cls jsWs, wsStar, liti "redirecturl", wsStar, chi '=',
      wsStar, RE.cls quoteCls])
    notQuoteCls (RE.cls quoteCls) body.toList

/-- Pattern 2, `/window\.(?:self\.)?location(?:\.href)?\s*=\s*['"]([^'"]+)['"]/i`:
`window.location = '…'` or `window.location.href = '…'`. -/
def winLocMatch (body : String) : Option String :=
  patSearch
    (seqs [liti "window.", opt (liti "self."), liti "location", opt (liti ".href"),
      wsStar, chi '=', wsStar, RE.cls quoteCls])
    notQuoteCls (RE.cls quoteCls) body.toList

/-- Pattern 3, `/window\.location\.replace\s*\(\s*['"]([^'"]+)['"]\s*\)/i`:
`window.location.replace('…')`. -/
def winReplaceMatch (body : String) : Option String :=
  patSearch
    (seqs [liti "window.location.replace", wsStar, chi '(', wsStar, RE.cls quoteCls])
    notQuoteCls (seqs [RE.cls quoteCls, wsStar, chi ')']) body.toList

/-- Pattern 4,
`/<meta[^>]*http-equiv\s*=\s*['"]refresh['"][^>]*content\s*=\s*['"][^'"]*url\s*=\s*([^'">\s]+)/i`:
a meta refresh tag. -/
def metaRefreshMatch (body : String) : Option String :=
  patSearch
    (seqs [liti "<meta", RE.starCls (fun c => c ≠ '>'), liti "http-equiv", wsStar,
      chi '=', wsStar, RE.cls quoteCls, liti "refresh", RE.cls quoteCls,
      RE.starCls (fun c => c ≠ '>'), liti "content", wsStar, chi '=', wsStar,
      RE.cls quoteCls, RE.starCls notQuoteCls, liti "url", wsStar, chi '=', wsStar])
    (fun c => notQuoteCls c && c ≠ '>' && !(jsWs c)) RE.eps body.toList

/-- The body scan of `_fetchEmailContent` for a redirect status with no
`Location` header: the four patterns tried in the `||` chain order, first
non-null capture wins (every capture group is `+`, so a successful match never
produces an empty — falsy — string). -/
def findBodyRedirect (body : String) : Option String :=
  match jsRedirectMatch body with
  | some u => some u
  | none =>
    match winLocMatch body with
    | some u => some u
    | none =>
      match winReplaceMatch body with
      | some u => some u
      | none => metaRefreshMatch body

example : winLocMatch "<script>window.location.href='https://x/y';</script>" =
    some "https://x/y" := by decide
example : jsRedirectMatch "<script>var redirecturl = \"https://r/1\";</script>" =
    some "https://r/1" := by decide
example : winReplaceMatch "window.location.replace( 'https://z/2' )" =
    some "https://z/2" := by decide
example : metaRefreshMatch "<meta http-equiv=\"refresh\" content=\"0;url=https://m/3\">" =
    some "https://m/3" := by decide
example : findBodyRedirect "<html>no redirect here</html>" = none := by decide
example : findBodyRedirect
    "<script>var redirecturl = 'https://r/1'; window.location.href='https://x/y';</script>" =
    some "https://r/1" := by decide

/-! ## The redirect-following fetch loop -/

/-- `url.href`: serialisation of parsed URL parts. -/
def serializeURL (u : URLParts) : String :=
  u.origin ++ u.pathname ++
    (match u.query with | none => "" | some q => "?" ++ q) ++
    (match u.fragment with | none => "" | some f => "#" ++ f)

/-- Model of `new URL(next, base).href`, as used to resolve a redirect target
against the current hop's URL: an absolute `http(s)` target is parsed and
serialised on its own; a root-relative target is joined to the base's origin;
any other target is joined to the base's directory (without dot-segment
normalisation).  When the base cannot be parsed either, the JS `catch` branch
keeps the target as-is. -/
def resolveUrl (next base : String) : String :=
  match parseURL next with
  | some u => serializeURL u
  | none =>
    match parseURL base with
    | some b =>
      if next.toList.headD ' ' = '/' then b.origin ++ next
      else
        let dir := (b.pathname.toList.reverse.dropWhile (fun c => c ≠ '/')).reverse
        b.origin ++ dir.asString ++ next
    | none => next

/-- One scripted HTTP response: status, optional `Location` header, the
`Set-Cookie` header values, and the body when it is a string. -/
structure HttpResponse where
  status : Nat
  location : Option String
  setCookie : List String
  body : Option String
  deriving Repr, DecidableEq

/-- One request issued by the fetch loop: the URL and the `Cookie` header sent
with it (`none` when no cookies have been collected, matching the conditional
spread of the `Cookie` header). -/
structure HttpRequest where
  url : String
  cookieHeader : Option String
  deriving Repr, DecidableEq

/-- The data the loop ends with: the requests issued (in order), the final
response, the cookie jar, and the final `currentUrl` (the `resolvedUrl` of the
returned object). -/
structure FetchOutcome where
  requests : List HttpRequest
  response : HttpResponse
  cookies : List String
  resolvedUrl : String
  deriving Repr, DecidableEq

/-- `c.split(';')[0]`: the `name=value` part of a `Set-Cookie` value. -/
def cookiePair (c : String) : String :=
  ((splitCharAux ';' c.toList []).headD []).asString

/-- The `Cookie` header for a jar: absent when the jar is empty, otherwise the
pairs joined with `"; "`. -/
def jarHeader (cs : List String) : Option String :=
  if cs = [] then none else some (String.intercalate "; " cs)

/-- The `for (i = 0; i < MAX_REDIRECTS; i++)` loop of `_fetchEmailContent`
over a script of responses by hop index.  Fuel is `MAX_REDIRECTS - i`; `last`
holds the response of the previous iteration, so the fuel-exhausted case is
the loop running to completion and using the last response obtained (with
`currentUrl` already advanced), exactly as the JS code does.  Each iteration
records the request (URL plus accumulated `Cookie` header), appends the
`name=value` part of every `Set-Cookie` value to the jar, and on a redirect
status follows the `Location` header or, when that is absent or empty and the
body is a string, the body-scan patterns; no target, or a non-redirect
status, ends the loop with the current response.  A status ≥ 400 makes axios
throw (`validateStatus: (s) => s < 400`). -/
def fetchLoop (script : Nat → HttpResponse) :
    Nat → Nat → String → List String → List HttpRequest → Option HttpResponse →
    Except JsError FetchOutcome
  | 0, _i, currentUrl, cookies, reqs, last =>
    match last with
    | some resp =>
      Except.ok { requests := reqs, response := resp, cookies := cookies,
                  resolvedUrl := currentUrl }
    | none =>
      Except.error { code := none, message := "response is undefined",
                     responseStatus := none }
  | remaining + 1, i, currentUrl, cookies, reqs, _last =>
    let req : HttpRequest := { url := currentUrl, cookieHeader := jarHeader cookies }
    let resp := script i
    if 400 ≤ resp.status then
      Except.error { code := none, message := "Request failed with status code 4xx or 5xx",
                     responseStatus := some resp.status }
    else
      let cookies' := cookies ++ resp.setCookie.map cookiePair
      let reqs' := reqs ++ [req]
      if resp.status = 301 ∨ resp.status = 302 ∨ resp.status = 303 ∨
          resp.status = 307 ∨ resp.status = 308 then
        let nextUrl : Option String :=
          match resp.location with
          | some loc => if loc = "" then resp.body.bind findBodyRedirect else some loc
          | none => resp.body.bind findBodyRedirect
        match nextUrl with
        | none =>
          Except.ok { requests := reqs', response := resp, cookies := cookies',
                      resolvedUrl := currentUrl }
        | some nu =>
          fetchLoop script remaining (i + 1) (resolveUrl nu currentUrl) cookies' reqs'
            (some resp)
      else
        Except.ok { requests := reqs', response := resp, cookies := cookies',
                    resolvedUrl := currentUrl }

/-- `_fetchEmailContent` from `server.js` (its redirect loop, over scripted
responses): start at the given URL with an empty jar and at most
`MAX_REDIRECTS = 10` hops. -/
def _fetchEmailContent (script : Nat → HttpResponse) (url : String) :
    Except JsError FetchOutcome :=
  fetchLoop script 10 0 url [] [] none

/-- The cookie jar contents after the first `n` hops of a script: the
`name=value` parts of every `Set-Cookie` value of hops `0..n-1`, in order. -/
def cookiesAfter (script : Nat → HttpResponse) (n : Nat) : List String :=
  (List.range n).flatMap (fun k => (script k).setCookie.map cookiePair)

theorem cookiesAfter_succ (script : Nat → HttpResponse) (n : Nat) :
    cookiesAfter script (n + 1) =
      cookiesAfter script n ++ (script n).setCookie.map cookiePair := by
  unfold cookiesAfter
  rw [List.range_succ, List.flatMap_append, List.flatMap_singleton]

/-- Appending the hop-`i` request preserves the per-request cookie-header
property. -/
theorem reqs_snoc_invariant {script : Nat → HttpResponse}
    {reqs : List HttpRequest} {i : Nat} {url : String}
    (Hreqs : ∀ n r, reqs.get? n = some r →
      r.cookieHeader = jarHeader (cookiesAfter script n))
    (Hlen : reqs.length = i) :
    ∀ n r, (reqs ++ [{ url := url, cookieHeader := jarHeader (cookiesAfter script i) }]
        : List HttpRequest).get? n = some r →
      r.cookieHeader = jarHeader (cookiesAfter script n) := by
  intro n r h
  by_cases hn : n < reqs.length
  · rw [List.get?_append hn] at h
    exact Hreqs n r h
  · rw [List.get?_append_right (Nat.le_of_not_lt hn)] at h
    rcases hdiff : n - reqs.length with _ | k
    · rw [hdiff] at h
      simp only [List.get?] at h
      cases h
      have hni : n = i := by omega
      rw [hni]
    · rw [hdiff] at h
      simp [List.get?] at h

/-- Loop invariant of `fetchLoop`: started at hop `i` with the jar holding
exactly the cookies of hops `0..i-1` and with `i` already-recorded requests
each carrying the jar of its own hop, every request of a successful outcome
carries the `Cookie` header joining exactly the cookies collected before its
hop. -/
theorem fetchLoop_cookie_invariant (script : Nat → HttpResponse) :
    ∀ (fuel i : Nat) (url : String) (reqs : List HttpRequest)
      (last : Option HttpResponse) (o : FetchOutcome),
      fetchLoop script fuel i url (cookiesAfter script i) reqs last = Except.ok o →
      (∀ n r, reqs.get? n = some r → r.cookieHeader = jarHeader (cookiesAfter script n)) →
      reqs.length = i →
      ∀ n r, o.requests.get? n = some r →
        r.cookieHeader = jarHeader (cookiesAfter script n) := by
  intro fuel
  induction fuel with
  | zero =>
    intro i url reqs last o h Hreqs _Hlen
    cases last with
    | some resp =>
      simp only [fetchLoop] at h
      cases h
      exact Hreqs
    | none => simp [fetchLoop] at h
  | succ fuel ih =>
    intro i url reqs last o h Hreqs Hlen
    simp only [fetchLoop] at h
    by_cases h400 : 400 ≤ (script i).status
    · rw [if_pos h400] at h
      cases h
    · rw [if_neg h400] at h
      have Hreqs' := @reqs_snoc_invariant _ _ _ url Hreqs Hlen
      have Hlen' :
          (reqs ++ [({ url := url, cookieHeader := jarHeader (cookiesAfter script i) } : HttpRequest)]).length = i + 1 := by
        simp [Hlen]
      by_cases hred : (script i).status = 301 ∨ (script i).status = 302 ∨
          (script i).status = 303 ∨ (script i).status = 307 ∨ (script i).status = 308
      · rw [if_pos hred] at h
        rcases hnext : (match (script i).location with
          | some loc => if loc = "" then ((script i).body.bind findBodyRedirect)
            else some loc
          | none => (script i).body.bind findBodyRedirect) with _ | nu
        · rw [hnext] at h
          cases h
          exact Hreqs'
        · rw [hnext] at h
          rw [← cookiesAfter_succ] at h
          exact ih (i + 1) _ _ _ o h Hreqs' Hlen'
      · rw [if_neg hred] at h
        cases h
        exact Hreqs'

/-- A chain of three 302 redirects, each setting one distinct cookie, then a
final 200. -/
def chainScript : Nat → HttpResponse
  | 0 => ⟨302, some "http://s1.test/a", ["a=1; Path=/; HttpOnly"], none⟩
  | 1 => ⟨302, some "http://s2.test/b", ["b=2"], none⟩
  | 2 => ⟨302, some "http://s3.test/c", ["c=3; Secure"], none⟩
  | _ => ⟨200, none, [], some "<html>ok</html>"⟩

/-- **C3.**  Within one multi-hop fetch the cookie collection grows
monotonically: each hop appends the `name=value` part of every `Set-Cookie`
value to the jar, every request carries the `Cookie` header joining exactly
the pairs collected on the hops before it (no header at all while the jar is
empty), and no pair is ever dropped — the jar after `n+1` hops extends the
jar after `n` hops even when hop `n` sets no cookie.  In particular, after a
chain of three 302 responses each setting a distinct cookie, the final
request carries all three pairs. -/
theorem fetchLoop_cookies_monotone (script : Nat → HttpResponse) (url : String)
    (o : FetchOutcome) (h : _fetchEmailContent script url = Except.ok o) :
    (∀ n r, o.requests.get? n = some r →
      r.cookieHeader = jarHeader (cookiesAfter script n)) ∧
    (∀ n, ∃ t, cookiesAfter script (n + 1) = cookiesAfter script n ++ t) ∧
    ((_fetchEmailContent chainScript "http://s0.test/").map
      (fun oc => oc.requests.map (fun r => r.cookieHeader)) =
      Except.ok [none, some "a=1", some "a=1; b=2", some "a=1; b=2; c=3"]) := by
  refine ⟨?_, ?_, by decide⟩
  · exact fetchLoop_cookie_invariant script 10 0 url [] none o h
      (fun n r hr => by simp [List.get?] at hr) rfl
  · intro n
    exact ⟨(script n).setCookie.map cookiePair, cookiesAfter_succ script n⟩

/-- Witness for `fetchLoop_cookies_monotone` on the three-cookie chain: the
fourth (final) request's header joins exactly the three cookies collected
before it, and the jar after hop 3 extends the jar after hop 2. -/
theorem fetchLoop_cookies_monotone_witness :
    HttpRequest.cookieHeader { url := "http://s3.test/c", cookieHeader := some "a=1; b=2; c=3" } =
      jarHeader (cookiesAfter chainScript 3) ∧
    (∃ t, cookiesAfter chainScript 3 = cookiesAfter chainScript 2 ++ t) := by
  have h := fetchLoop_cookies_monotone chainScript "http://s0.test/"
    { requests := [{ url := "http://s0.test/", cookieHeader := none },
        { url := "http://s1.test/a", cookieHeader := some "a=1" },
        { url := "http://s2.test/b", cookieHeader := some "a=1; b=2" },
        { url := "http://s3.test/c", cookieHeader := some "a=1; b=2; c=3" }],
      response := ⟨200, none, [], some "<html>ok</html>"⟩,
      cookies := ["a=1", "b=2", "c=3"],
      resolvedUrl := "http://s3.test/c" }
    (by decide)
  exact ⟨h.1 3 _ (by decide), h.2.1 2⟩

/-- A 302 with no `Location` header whose body carries a
`window.location.href` assignment, then a 200. -/
def winLocScript : Nat → HttpResponse
  | 0 => ⟨302, none, [], some "<html><script>window.location.href='https://x/y';</script></html>"⟩
  | _ => ⟨200, none, [], some "<html>landed</html>"⟩

/-- A 302 with no `Location` header and no redirect pattern in the body. -/
def noPatternResp : HttpResponse := ⟨302, none, [], some "<html>nothing to follow here</html>"⟩

/-- The script always answering `noPatternResp`. -/
def noPatternScript : Nat → HttpResponse := fun _ => noPatternResp

/-- **C5.**  On a redirect status with no `Location` header the body is
scanned in a fixed priority order — `redirecturl` variable, then
`window.location`/`window.location.href` assignment, then
`window.location.replace(...)`, then meta refresh — and the first pattern
kind that matches supplies the next URL.  In particular a 302 whose body
contains `window.location.href='https://x/y'` makes the next hop request
`https://x/y`, and when no pattern matches, following stops and the current
302 response is the final one. -/
theorem findBodyRedirect_priority :
    (∀ body u, jsRedirectMatch body = some u → findBodyRedirect body = some u) ∧
    (∀ body u, jsRedirectMatch body = none → winLocMatch body = some u →
      findBodyRedirect body = some u) ∧
    (∀ body u, jsRedirectMatch body = none → winLocMatch body = none →
      winReplaceMatch body = some u → findBodyRedirect body = some u) ∧
    (∀ body, jsRedirectMatch body = none → winLocMatch body = none →
      winReplaceMatch body = none → findBodyRedirect body = metaRefreshMatch body) ∧
    ((_fetchEmailContent winLocScript "http://s0.test/").map
      (fun o => o.requests.map (fun r => r.url)) =
      Except.ok ["http://s0.test/", "https://x/y"]) ∧
    (_fetchEmailContent noPatternScript "http://s0.test/" =
      Except.ok { requests := [{ url := "http://s0.test/", cookieHeader := none }],
                  response := noPatternResp, cookies := [],
                  resolvedUrl := "http://s0.test/" }) := by
  refine ⟨?_, ?_, ?_, ?_, by decide, by decide⟩
  · intro body u h1
    simp [findBodyRedirect, h1]
  · intro body u h1 h2
    simp [findBodyRedirect, h1, h2]
  · intro body u h1 h2 h3
    simp [findBodyRedirect, h1, h2, h3]
  · intro body h1 h2 h3
    simp [findBodyRedirect, h1, h2, h3]

/-- Witness for `findBodyRedirect_priority`: the `window.location.href` body
resolves to `https://x/y` through the second pattern, and a body whose only
match is the meta refresh tag falls through to it. -/
theorem findBodyRedirect_priority_witness :
    findBodyRedirect "<script>window.location.href='https://x/y';</script>" =
      some "https://x/y" ∧
    findBodyRedirect "<meta http-equiv=\"refresh\" content=\"0;url=https://m/3\">" =
      metaRefreshMatch "<meta http-equiv=\"refresh\" content=\"0;url=https://m/3\">" := by
  constructor
  · exact findBodyRedirect_priority.2.1 _ _ (by decide) (by decide)
  · exact findBodyRedirect_priority.2.2.2.1 _ (by decide) (by decide) (by decide)

/-! ## The paragraph aligner (`findBestEmailSegment`) -/

/-- Index of the first occurrence of `pat` in the scanned list, counting from
`k`; auxiliary for the JS `indexOf` family. -/
def indexOfAux (pat : List Char) : List Char → Nat → Option Nat
  | [], k => if pat.isEmpty then some k else none
  | c :: rest, k =>
    if startsWithL pat (c :: rest) then some k
    else indexOfAux pat rest (k + 1)

/-- `s.indexOf(pat)`: first occurrence index, `-1` when absent. -/
def jsIndexOf (s pat : String) : Int :=
  match indexOfAux pat.toList s.toList 0 with
  | some k => (k : Int)
  | none => -1

/-- `s.indexOf(c, pos)` for a single character: first occurrence at an index
≥ `pos` (negative positions clamp to 0), `-1` when absent. -/
def jsIndexOfCharFrom (s : String) (c : Char) (pos : Int) : Int :=
  let start : Nat := pos.toNat
  match indexOfAux [c] (s.toList.drop start) 0 with
  | some k => ((start + k : Nat) : Int)
  | none => -1

/-- Index of the last occurrence of `c`, if any. -/
def lastIndexAux (c : Char) : List Char → Option Nat
  | [] => none
  | d :: rest =>
    match lastIndexAux c rest with
    | some k => some (k + 1)
    | none => if d = c then some 0 else none

/-- `s.lastIndexOf(c, pos)` for a single character: greatest occurrence index
≤ `pos` (negative positions behave like 0), `-1` when absent. -/
def jsLastIndexOfChar (s : String) (c : Char) (pos : Int) : Int :=
  let bound : Nat := min pos.toNat s.toList.length
  match lastIndexAux c (s.toList.take (bound + 1)) with
  | some k => (k : Int)
  | none => -1

/-- `s.substring(a, b)`: both arguments clamped to `[0, length]` and swapped
when out of order. -/
def jsSubstring (s : String) (a b : Int) : String :=
  let len := s.toList.length
  let aa := min a.toNat len
  let bb := min b.toNat len
  let lo := min aa bb
  let hi := max aa bb
  ((s.toList.drop lo).take (hi - lo)).asString

/-- The `{segment, score, precision, recall}` object the aligner returns. -/
structure SegResult where
  segment : String
  score : ℚ
  precision : ℚ
  «recall» : ℚ
  deriving Repr, DecidableEq

/-- One "keep the candidate if it strictly improves the best f1" step of the
aligner (the bodies of the `forEach` and the combination loop).  In every
reachable update `result.precision`/`result.recall` are present — the
degenerate scorer result has score 0 and can never strictly exceed the best —
so the `getD 0` is exact. -/
def segUpdate (docBlock : String) (best : SegResult) (candidate : String) : SegResult :=
  let result := getSimilarityScore docBlock candidate
  if result.score > best.score then
    { segment := candidate, score := result.score,
      precision := result.precision.getD 0, «recall» := result.«recall».getD 0 }
  else best

/-- Strategy 1 of `findBestEmailSegment`: score the block against every
individual paragraph, then against every 2- and 3-consecutive-paragraph
concatenation (single space as separator), in loop order, keeping the first
strict maximum. -/
def strategy1 (docBlock : String) (emailParagraphs : List String) : SegResult :=
  let init : SegResult := { segment := "", score := 0, precision := 0, «recall» := 0 }
  if emailParagraphs.length > 0 then
    let afterSingles := emailParagraphs.foldl (segUpdate docBlock) init
    (List.range (emailParagraphs.length - 1)).foldl (fun best i =>
      let combined2 := emailParagraphs.getD i "" ++ " " ++ emailParagraphs.getD (i + 1) ""
      let best2 := segUpdate docBlock best combined2
      if i < emailParagraphs.length - 2 then
        segUpdate docBlock best2 (combined2 ++ " " ++ emailParagraphs.getD (i + 2) "")
      else best2) afterSingles
  else init

/-- The first of the at most three block words longer than five characters
(`docWords.filter(w => w.length > 5).slice(0, 3)`) found in the lowercased
flat text, with its position; the loop `break`s at the first hit. -/
def firstLongMatchedWord (docBlock emailTextFlat : String) : Option (String × Int) :=
  (((splitWords docBlock).filter (fun w => w.toList.length > 5)).take 3).findSome?
    (fun w =>
      let idx := jsIndexOf (toLowerStr emailTextFlat) w
      if idx ≠ -1 then some (w, idx) else none)

/-- The window start: the last space at or before `idx - 20`, clamped to 0
(`Math.max(0, flat.lastIndexOf(' ', Math.max(0, idx - 20)))`). -/
def ctxStart (emailTextFlat : String) (idx : Int) : Int :=
  max 0 (jsLastIndexOfChar emailTextFlat ' ' (max 0 (idx - 20)))

/-- The window end:
`Math.min(flat.length, flat.indexOf(' ', idx + docBlock.length + 20) || flat.length)`.
The `|| flat.length` replaces only a `0` result (falsy); a `-1` (not found) is
kept and survives the `min`. -/
def ctxEnd (emailTextFlat : String) (blockLen : Nat) (idx : Int) : Int :=
  let e := jsIndexOfCharFrom emailTextFlat ' ' (idx + (blockLen : Int) + 20)
  min ((emailTextFlat.toList.length : Nat) : Int)
    (if e = 0 then ((emailTextFlat.toList.length : Nat) : Int) else e)

/-- `flatResult.precision > 0.5` as JS evaluates it: comparing the absent
(`undefined`) precision of the degenerate scorer result with `0.5` is
`false`. -/
def optGtHalf (p : Option ℚ) : Bool :=
  match p with
  | some q => decide (q > 1/2)
  | none => false

/-- `findBestEmailSegment` from `server.js`: the empty-block early return,
strategy 1 over the paragraphs, and — when the best f1 is below 0.4, the flat
text is nonempty and the block's precision against the whole flat text
exceeds 0.5 — the contextual-window fallback around the first long matched
word, kept only on a strictly better score. -/
def findBestEmailSegment (docBlock : String) (emailParagraphs : List String)
    (emailTextFlat : String) : SegResult :=
  if docBlock = "" then { segment := "", score := 0, precision := 0, «recall» := 0 }
  else
    let best := strategy1 docBlock emailParagraphs
    if best.score < 2/5 ∧ emailTextFlat ≠ "" then
      let flatResult := getSimilarityScore docBlock emailTextFlat
      if optGtHalf flatResult.precision then
        match firstLongMatchedWord docBlock emailTextFlat with
        | none => best
        | some wi =>
          let start := ctxStart emailTextFlat wi.2
          let endIdx := ctxEnd emailTextFlat docBlock.toList.length wi.2
          let context := trimWsStr (jsSubstring emailTextFlat start endIdx)
          let ctxResult := getSimilarityScore docBlock context
          if ctxResult.score > best.score then
            { segment := (if start > 0 then "..." else "") ++ context ++
                (if endIdx < ((emailTextFlat.toList.length : Nat) : Int) then "..." else ""),
              score := ctxResult.score, precision := ctxResult.precision.getD 0,
              «recall» := ctxResult.«recall».getD 0 }
          else best
      else best
    else best

example : (findBestEmailSegment "alpha beta gamma delta epsilon"
    ["alpha one two three four five six seven"] "alpha beta qq ww ee rr").score =
    2/13 := by decide

/-- The contextual fallback exactly as claim C2 words it.  Modelled from the
spec: when the best paragraph-stage f1 is below 0.3 and at least one word of
the block matched, locate the first matched word's position in the flat text,
extract the window of ±100 characters plus the block's own length around it
as the candidate segment, score it the same way, and replace the best segment
only if this contextual score exceeds the paragraph-based one. -/
def findBestEmailSegmentClaimed (docBlock : String) (emailParagraphs : List String)
    (emailTextFlat : String) : SegResult :=
  let best := strategy1 docBlock emailParagraphs
  let flatResult := getSimilarityScore docBlock emailTextFlat
  if best.score < 3/10 ∧ flatResult.matchedWords ≠ [] then
    match flatResult.matchedWords with
    | [] => best
    | w :: _ =>
      let idx := jsIndexOf (toLowerStr emailTextFlat) w
      let context := jsSubstring emailTextFlat (idx - 100)
        (idx + (docBlock.toList.length : Int) + 100)
      let ctxResult := getSimilarityScore docBlock context
      if ctxResult.score > best.score then
        { segment := context, score := ctxResult.score,
          precision := ctxResult.precision.getD 0,
          «recall» := ctxResult.«recall».getD 0 }
      else best
  else best

/-- **C2, counterexample.**  On the block `"alpha beta gamma delta epsilon"`,
one paragraph scoring f1 = 2/13 < 0.3 and flat text
`"alpha beta qq ww ee rr"` matching two block words, the claim's trigger
condition holds (f1 below 0.3 and at least one word matched) and its ±100
window around the first matched word would replace the best segment — but
the code returns the paragraph unchanged, because its fallback additionally
requires the block's precision against the whole flat text to exceed 0.5
(here it is 0.4) and uses different thresholds and window bounds. -/
theorem findBestEmailSegment_claim_cex :
    (strategy1 "alpha beta gamma delta epsilon"
      ["alpha one two three four five six seven"]).score < 3/10 ∧
    (getSimilarityScore "alpha beta gamma delta epsilon"
      "alpha beta qq ww ee rr").matchedWords ≠ [] ∧
    findBestEmailSegment "alpha beta gamma delta epsilon"
      ["alpha one two three four five six seven"] "alpha beta qq ww ee rr" ≠
    findBestEmailSegmentClaimed "alpha beta gamma delta epsilon"
      ["alpha one two three four five six seven"] "alpha beta qq ww ee rr" ∧
    (findBestEmailSegment "alpha beta gamma delta epsilon"
      ["alpha one two three four five six seven"] "alpha beta qq ww ee rr").segment =
      "alpha one two three four five six seven" :=
  ⟨by decide, by decide, by decide, by decide⟩

/-- The aligner's paragraph-stage candidates in evaluation order: every
individual paragraph, then for each starting index the 2-paragraph and (when
it exists) 3-paragraph consecutive concatenation. -/
def paragraphCandidates (ps : List String) : List String :=
  ps ++ (List.range (ps.length - 1)).flatMap (fun i =>
    let c2 := ps.getD i "" ++ " " ++ ps.getD (i + 1) ""
    if i < ps.length - 2 then [c2, c2 ++ " " ++ ps.getD (i + 2) ""] else [c2])

/-- The aligner as the amended claim describes it: the paragraph stage keeps
the first strict f1 maximum over the candidate list, and the contextual
fallback runs exactly when the paragraph-stage f1 is below 0.4, the flat text
is nonempty and the block's precision against the whole flat text exceeds
0.5; it scores the trimmed window running from the last space at or before
(index − 20) to the first space after (index + block length + 20) around the
first matched block word longer than five characters, replacing the best
segment only on a strictly greater score. -/
def findBestEmailSegmentAmended (docBlock : String) (ps : List String)
    (flat : String) : SegResult :=
  if docBlock = "" then { segment := "", score := 0, precision := 0, «recall» := 0 }
  else
    let best := (paragraphCandidates ps).foldl (segUpdate docBlock)
      { segment := "", score := 0, precision := 0, «recall» := 0 }
    if best.score < 2/5 ∧ flat ≠ "" then
      if optGtHalf (getSimilarityScore docBlock flat).precision then
        match firstLongMatchedWord docBlock flat with
        | none => best
        | some wi =>
          let start := ctxStart flat wi.2
          let endIdx := ctxEnd flat docBlock.toList.length wi.2
          let context := trimWsStr (jsSubstring flat start endIdx)
          let ctxResult := getSimilarityScore docBlock context
          if ctxResult.score > best.score then
            { segment := (if start > 0 then "..." else "") ++ context ++
                (if endIdx < ((flat.toList.length : Nat) : Int) then "..." else ""),
              score := ctxResult.score, precision := ctxResult.precision.getD 0,
              «recall» := ctxResult.«recall».getD 0 }
          else best
      else best
    else best

theorem foldl_flatMap {α γ : Type} (f : α → String → α) (g : γ → List String) :
    ∀ (l : List γ) (b : α), (l.flatMap g).foldl f b =
      l.foldl (fun acc i => (g i).foldl f acc) b := by
  intro l
  induction l with
  | nil => intro b; rfl
  | cons i rest ih =>
    intro b
    rw [List.flatMap_cons, List.foldl_append, List.foldl_cons, ih]

theorem strategy1_eq_candidates (d : String) (ps : List String) :
    strategy1 d ps = (paragraphCandidates ps).foldl (segUpdate d)
      { segment := "", score := 0, precision := 0, «recall» := 0 } := by
  unfold strategy1 paragraphCandidates
  by_cases hps : ps.length > 0
  · rw [if_pos hps, List.foldl_append, foldl_flatMap]
    dsimp only
    congr 1
    funext acc i
    dsimp only
    by_cases hi : i < ps.length - 2
    · simp [hi]
    · simp [hi]
  · rw [if_neg hps]
    have h0 : ps = [] := List.length_eq_zero.mp (by omega)
    subst h0
    rfl

/-- **C2, amended.**  The aligner equals the amended description: the
paragraph stage is the fold of the strict-improvement update over the
individual paragraphs and the 2- and 3-consecutive combinations, and the
contextual fallback runs only when the paragraph-stage f1 is below 0.4 (not
0.3), the flat text is nonempty, and the block's precision against the whole
flat text exceeds 0.5 (not merely one matched word); in particular the result
is exactly the paragraph-stage one whenever the paragraph f1 is at least 0.4,
and also when the flat-precision gate fails even though words matched. -/
theorem findBestEmailSegment_amended_eq (d : String) (ps : List String) (f : String) :
    findBestEmailSegment d ps f = findBestEmailSegmentAmended d ps f ∧
    (d ≠ "" → 2/5 ≤ (strategy1 d ps).score →
      findBestEmailSegment d ps f = strategy1 d ps) ∧
    (d ≠ "" → f ≠ "" → optGtHalf (getSimilarityScore d f).precision = false →
      findBestEmailSegment d ps f = strategy1 d ps) := by
  refine ⟨?_, ?_, ?_⟩
  · unfold findBestEmailSegment findBestEmailSegmentAmended
    rw [strategy1_eq_candidates]
  · intro hd hge
    unfold findBestEmailSegment
    rw [if_neg hd, if_neg (by intro hc; exact absurd hge (not_le.mpr hc.1))]
  · intro hd hf hgate
    unfold findBestEmailSegment
    rw [if_neg hd]
    by_cases hlt : (strategy1 d ps).score < 2/5 ∧ f ≠ ""
    · rw [if_pos hlt, if_neg (by rw [hgate]; exact Bool.false_ne_true)]
    · rw [if_neg hlt]

/-- Witness for `findBestEmailSegment_amended_eq` at the counterexample
input: the precision gate fails (0.4 ≤ 0.5), so the result is the
paragraph-stage one. -/
theorem findBestEmailSegment_amended_eq_witness :
    findBestEmailSegment "alpha beta gamma delta epsilon"
      ["alpha one two three four five six seven"] "alpha beta qq ww ee rr" =
    strategy1 "alpha beta gamma delta epsilon"
      ["alpha one two three four five six seven"] :=
  (findBestEmailSegment_amended_eq "alpha beta gamma delta epsilon"
    ["alpha one two three four five six seven"] "alpha beta qq ww ee rr").2.2
    (by decide) (by decide) (by decide)

/-! ## Detailed text comparison (`compareTextDetailed`) -/

/-- Split on the regex `/\n{1,2}/`: each run of one or two newlines separates
pieces (the match is greedy, so three consecutive newlines produce an empty
piece between a double and a single separator). -/
def splitNewlines12 : List Char → List Char → List String
  | [], acc => [acc.reverse.asString]
  | '\n' :: '\n' :: rest, acc => acc.reverse.asString :: splitNewlines12 rest []
  | '\n' :: rest, acc => acc.reverse.asString :: splitNewlines12 rest []
  | c :: rest, acc => splitNewlines12 rest (c :: acc)

/-- The reference blocks of `compareTextDetailed`: split the document text on
`/\n{1,2}/`, trim each piece, keep those longer than 10 characters. -/
def docBlocks (docText : String) : List String :=
  ((splitNewlines12 docText.toList []).map trimWsStr).filter
    (fun t => t.toList.length > 10)

/-- The metadata test of `compareTextDetailed`: the lowercased block contains
`subject:` or `preheader:`, or starts with `subject` or `preheader`. -/
def isMetadataBlock (block : String) : Bool :=
  let lower := toLowerStr block
  includesStr lower "subject:" || includesStr lower "preheader:" ||
  startsWithL "subject".toList lower.toList ||
  startsWithL "preheader".toList lower.toList

/-- `Math.round` on the nonnegative rationals occurring here. -/
def jsRound (q : ℚ) : Int := Int.floor (q + 1/2)

/-- One per-block row of the detailed comparison. -/
structure BlockResult where
  originalText : String
  emailText : String
  matchPercentage : Int
  precision : Int
  «recall» : Int
  matchedWords : List String
  unmatchedWords : List String
  extraWords : List String
  totalWords : Nat
  totalEmailWords : Nat
  status : String
  deriving Repr, DecidableEq

/-- One metadata row (subject line / preheader). -/
structure MetadataEntry where
  type : String
  content : String
  note : String
  deriving Repr, DecidableEq

/-- The four block buckets the `forEach` pushes into. -/
structure TextBuckets where
  matched : List BlockResult
  partialMatch : List BlockResult
  notFound : List BlockResult
  metadata : List MetadataEntry
  deriving Repr, DecidableEq

/-- The `summary` object of `compareTextDetailed`. -/
structure TextSummary where
  totalBlocks : Nat
  fullMatches : Nat
  partialMatches : Nat
  notFound : Nat
  metadataItems : Nat
  overallScore : Int
  deriving Repr, DecidableEq

/-- The full return value of `compareTextDetailed`. -/
structure TextComparison where
  matched : List BlockResult
  partialMatch : List BlockResult
  notFound : List BlockResult
  metadata : List MetadataEntry
  summary : TextSummary
  deriving Repr, DecidableEq

/-- The per-block row and the segment score it was classified by: align the
block, re-score it against the chosen segment for the word-level details, and
round the percentages. -/
def mkBlockResult (emailText : String) (ps : List String) (threshold : ℚ)
    (block : String) : BlockResult × ℚ :=
  let seg := findBestEmailSegment block ps emailText
  let details := getSimilarityScore block seg.segment
  ({ originalText := block, emailText := seg.segment,
     matchPercentage := jsRound (seg.score * 100),
     precision := jsRound (seg.precision * 100),
     «recall» := jsRound (seg.«recall» * 100),
     matchedWords := details.matchedWords.take 15,
     unmatchedWords := details.unmatchedWords.take 15,
     extraWords := details.extraWords.take 10,
     totalWords := details.totalWords,
     totalEmailWords := details.totalEmailWords.getD 0,
     status := if seg.score ≥ 9/10 then "FULL MATCH"
       else if seg.score ≥ threshold then "PARTIAL MATCH" else "NOT FOUND" },
   seg.score)

/-- The body of the `docBlocks.forEach` loop: metadata rows go to the
`metadata` bucket, other blocks to exactly one of the three verdict buckets
according to the segment score. -/
def compareStepB (emailText : String) (ps : List String) (threshold : ℚ)
    (acc : TextBuckets) (block : String) : TextBuckets :=
  if isMetadataBlock block then
    { acc with metadata := acc.metadata ++
        [{ type := if includesStr (toLowerStr block) "subject" then "Subject Line"
             else "Preheader",
           content := block, note := "Not expected in email body (metadata only)" }] }
  else
    let pr := mkBlockResult emailText ps threshold block
    if pr.2 ≥ 9/10 then { acc with matched := acc.matched ++ [pr.1] }
    else if pr.2 ≥ threshold then { acc with partialMatch := acc.partialMatch ++ [pr.1] }
    else { acc with notFound := acc.notFound ++ [pr.1] }

/-- `compareTextDetailed` from `server.js` (the endpoint calls it with the
default `threshold = 0.7`). -/
def compareTextDetailed (docText emailText : String) (ps : List String)
    (threshold : ℚ) : TextComparison :=
  let buckets := (docBlocks docText).foldl (compareStepB emailText ps threshold)
    { matched := [], partialMatch := [], notFound := [], metadata := [] }
  let totalBlocks := buckets.matched.length + buckets.partialMatch.length +
    buckets.notFound.length
  let overallScore : Int :=
    if totalBlocks > 0 then
      jsRound ((((buckets.matched.length : ℚ) +
        (buckets.partialMatch.length : ℚ) * (1/2)) / (totalBlocks : ℚ)) * 100)
    else 100
  let summary : TextSummary :=
    { totalBlocks := totalBlocks, fullMatches := buckets.matched.length,
      partialMatches := buckets.partialMatch.length,
      notFound := buckets.notFound.length,
      metadataItems := buckets.metadata.length, overallScore := overallScore }
  { matched := buckets.matched, partialMatch := buckets.partialMatch,
    notFound := buckets.notFound, metadata := buckets.metadata,
    summary := summary }

/-- The metadata row built for a metadata block. -/
def mkMetadataEntry (b : String) : MetadataEntry :=
  { type := if includesStr (toLowerStr b) "subject" then "Subject Line" else "Preheader",
    content := b, note := "Not expected in email body (metadata only)" }

/-- The bucket predicates, by the segment score `s` of a non-metadata block:
full match (`s ≥ 0.9`), partial match (`0.9 > s ≥ threshold`), not found
(neither). -/
def fullPred (emailText : String) (ps : List String) (b : String) : Bool :=
  !(isMetadataBlock b) &&
    decide ((findBestEmailSegment b ps emailText).score ≥ 9/10)

def partPred (emailText : String) (ps : List String) (threshold : ℚ) (b : String) : Bool :=
  !(isMetadataBlock b) &&
    !(decide ((findBestEmailSegment b ps emailText).score ≥ 9/10)) &&
    decide ((findBestEmailSegment b ps emailText).score ≥ threshold)

def nfPred (emailText : String) (ps : List String) (threshold : ℚ) (b : String) : Bool :=
  !(isMetadataBlock b) &&
    !(decide ((findBestEmailSegment b ps emailText).score ≥ 9/10)) &&
    !(decide ((findBestEmailSegment b ps emailText).score ≥ threshold))

/-- Explicit characterisation of the bucket fold: each bucket collects, in
order, exactly the blocks its predicate selects. -/
theorem compareFold_eq (emailText : String) (ps : List String) (threshold : ℚ) :
    ∀ (blocks : List String) (acc : TextBuckets),
      blocks.foldl (compareStepB emailText ps threshold) acc =
        { matched := acc.matched ++ ((blocks.filter (fullPred emailText ps)).map
            (fun b => (mkBlockResult emailText ps threshold b).1)),
          partialMatch := acc.partialMatch ++
            ((blocks.filter (partPred emailText ps threshold)).map
            (fun b => (mkBlockResult emailText ps threshold b).1)),
          notFound := acc.notFound ++
            ((blocks.filter (nfPred emailText ps threshold)).map
            (fun b => (mkBlockResult emailText ps threshold b).1)),
          metadata := acc.metadata ++
            ((blocks.filter isMetadataBlock).map mkMetadataEntry) } := by
  intro blocks
  induction blocks with
  | nil => intro acc; simp
  | cons b rest ih =>
    intro acc
    rw [List.foldl_cons, ih]
    by_cases hm : isMetadataBlock b = true
    · simp only [compareStepB, if_pos hm, fullPred, partPred, nfPred,
        List.filter_cons, hm]
      simp [List.append_assoc, mkMetadataEntry]
    · have hsc : (mkBlockResult emailText ps threshold b).2 =
        (findBestEmailSegment b ps emailText).score := rfl
      by_cases h9 : (findBestEmailSegment b ps emailText).score ≥ 9/10
      · simp only [compareStepB, if_neg hm, hsc, if_pos h9, fullPred, partPred,
          nfPred, List.filter_cons, hm, h9]
        simp [List.append_assoc]
      · by_cases ht : (findBestEmailSegment b ps emailText).score ≥ threshold
        · simp only [compareStepB, if_neg hm, hsc, if_neg h9, if_pos ht, fullPred,
            partPred, nfPred, List.filter_cons, hm, h9, ht]
          simp [List.append_assoc]
        · simp only [compareStepB, if_neg hm, hsc, if_neg h9, if_neg ht, fullPred,
            partPred, nfPred, List.filter_cons, hm, h9, ht]
          simp [List.append_assoc]

/-- **C8, counterexample.**  A reference block that the metadata test matches
is placed in the `metadata` bucket and in none of the three verdict buckets:
for the document text `"Subject: Welcome to our store"` the (single, longer
than 10 characters) block appears in no verdict bucket at all. -/
theorem compareTextDetailed_partition_cex :
    "Subject: Welcome to our store" ∈ docBlocks "Subject: Welcome to our store" ∧
    (compareTextDetailed "Subject: Welcome to our store" "" [] (7/10)).matched = [] ∧
    (compareTextDetailed "Subject: Welcome to our store" "" [] (7/10)).partialMatch = [] ∧
    (compareTextDetailed "Subject: Welcome to our store" "" [] (7/10)).notFound = [] :=
  ⟨by decide, by decide, by decide, by decide⟩

/-- Image of a filtered-and-built bucket under `originalText` is the filter
itself. -/
theorem bucket_map_originalText (emailText : String) (ps : List String)
    (threshold : ℚ) (p : String → Bool) (blocks : List String) :
    ((blocks.filter p).map (fun b => (mkBlockResult emailText ps threshold b).1)).map
      BlockResult.originalText = blocks.filter p := by
  rw [List.map_map]
  have hcomp : (BlockResult.originalText ∘
      fun b => (mkBlockResult emailText ps threshold b).1) = id := by
    funext b
    rfl
  rw [hcomp, List.map_id]

/-- **C8, amended.**  Every non-metadata reference block (trimmed, longer
than 10 characters, obtained by splitting on `/\n{1,2}/`) lands in exactly
one verdict bucket — FULL MATCH when its best-segment f1 is ≥ 0.9, PARTIAL
MATCH when 0.7 ≤ f1 < 0.9, NOT FOUND when f1 < 0.7 — and in no other;
blocks that the metadata test recognises (containing `subject:`/`preheader:`
or starting with `subject`/`preheader`) are diverted to the separate
`metadata` bucket instead and appear in no verdict bucket. -/
theorem compareTextDetailed_partition (docText emailText : String) (ps : List String)
    (b : String) (hb : b ∈ docBlocks docText) (hm : isMetadataBlock b = false) :
    (b ∈ ((compareTextDetailed docText emailText ps (7/10)).matched.map
        BlockResult.originalText) ↔
      (9:ℚ)/10 ≤ (findBestEmailSegment b ps emailText).score) ∧
    (b ∈ ((compareTextDetailed docText emailText ps (7/10)).partialMatch.map
        BlockResult.originalText) ↔
      ((7:ℚ)/10 ≤ (findBestEmailSegment b ps emailText).score ∧
        (findBestEmailSegment b ps emailText).score < 9/10)) ∧
    (b ∈ ((compareTextDetailed docText emailText ps (7/10)).notFound.map
        BlockResult.originalText) ↔
      (findBestEmailSegment b ps emailText).score < 7/10) ∧
    ((b ∈ ((compareTextDetailed docText emailText ps (7/10)).matched.map
          BlockResult.originalText) ∧
        b ∉ ((compareTextDetailed docText emailText ps (7/10)).partialMatch.map
          BlockResult.originalText) ∧
        b ∉ ((compareTextDetailed docText emailText ps (7/10)).notFound.map
          BlockResult.originalText)) ∨
      (b ∉ ((compareTextDetailed docText emailText ps (7/10)).matched.map
          BlockResult.originalText) ∧
        b ∈ ((compareTextDetailed docText emailText ps (7/10)).partialMatch.map
          BlockResult.originalText) ∧
        b ∉ ((compareTextDetailed docText emailText ps (7/10)).notFound.map
          BlockResult.originalText)) ∨
      (b ∉ ((compareTextDetailed docText emailText ps (7/10)).matched.map
          BlockResult.originalText) ∧
        b ∉ ((compareTextDetailed docText emailText ps (7/10)).partialMatch.map
          BlockResult.originalText) ∧
        b ∈ ((compareTextDetailed docText emailText ps (7/10)).notFound.map
          BlockResult.originalText))) := by
  have hfold := compareFold_eq emailText ps (7/10) (docBlocks docText)
    { matched := [], partialMatch := [], notFound := [], metadata := [] }
  have hmat : (compareTextDetailed docText emailText ps (7/10)).matched =
      ((docBlocks docText).filter (fullPred emailText ps)).map
        (fun blk => (mkBlockResult emailText ps (7/10) blk).1) := by
    show (((docBlocks docText).foldl (compareStepB emailText ps (7/10))
      { matched := [], partialMatch := [], notFound := [], metadata := [] }).matched) = _
    rw [hfold]
    simp
  have hpar : (compareTextDetailed docText emailText ps (7/10)).partialMatch =
      ((docBlocks docText).filter (partPred emailText ps (7/10))).map
        (fun blk => (mkBlockResult emailText ps (7/10) blk).1) := by
    show (((docBlocks docText).foldl (compareStepB emailText ps (7/10))
      { matched := [], partialMatch := [], notFound := [], metadata := [] }).partialMatch) = _
    rw [hfold]
    simp
  have hnf : (compareTextDetailed docText emailText ps (7/10)).notFound =
      ((docBlocks docText).filter (nfPred emailText ps (7/10))).map
        (fun blk => (mkBlockResult emailText ps (7/10) blk).1) := by
    show (((docBlocks docText).foldl (compareStepB emailText ps (7/10))
      { matched := [], partialMatch := [], notFound := [], metadata := [] }).notFound) = _
    rw [hfold]
    simp
  have hM : b ∈ ((compareTextDetailed docText emailText ps (7/10)).matched.map
      BlockResult.originalText) ↔ (9:ℚ)/10 ≤ (findBestEmailSegment b ps emailText).score := by
    rw [hmat, bucket_map_originalText, List.mem_filter]
    simp [fullPred, hm, hb]
  have hP : b ∈ ((compareTextDetailed docText emailText ps (7/10)).partialMatch.map
      BlockResult.originalText) ↔
      ((7:ℚ)/10 ≤ (findBestEmailSegment b ps emailText).score ∧
        (findBestEmailSegment b ps emailText).score < 9/10) := by
    rw [hpar, bucket_map_originalText, List.mem_filter]
    simp [partPred, hm, hb, not_le]
    tauto
  have hN : b ∈ ((compareTextDetailed docText emailText ps (7/10)).notFound.map
      BlockResult.originalText) ↔
      (findBestEmailSegment b ps emailText).score < 7/10 := by
    rw [hnf, bucket_map_originalText, List.mem_filter]
    simp [nfPred, hm, hb, not_le]
    intro h1
    exact lt_of_lt_of_le h1 (by norm_num)
  refine ⟨hM, hP, hN, ?_⟩
  by_cases h9 : (9:ℚ)/10 ≤ (findBestEmailSegment b ps emailText).score
  · exact Or.inl ⟨hM.mpr h9, fun hp => absurd (hP.mp hp).2 (not_lt.mpr h9),
      fun hn => absurd (hN.mp hn) (not_lt.mpr (le_trans (by norm_num) h9))⟩
  · by_cases h7 : (7:ℚ)/10 ≤ (findBestEmailSegment b ps emailText).score
    · exact Or.inr (Or.inl ⟨fun hmem => absurd (hM.mp hmem) h9,
        hP.mpr ⟨h7, not_le.mp h9⟩, fun hn => absurd (hN.mp hn) (not_lt.mpr h7)⟩)
    · exact Or.inr (Or.inr ⟨fun hmem => absurd (hM.mp hmem) h9,
        fun hp => absurd (hP.mp hp).1 h7, hN.mpr (not_le.mp h7)⟩)

/-- Witness for `compareTextDetailed_partition`: a block with no match at all
(empty page) lands in the NOT FOUND bucket and in no other. -/
theorem compareTextDetailed_partition_witness :
    ("welcome to the store today" ∈
      ((compareTextDetailed "welcome to the store today" "" [] (7/10)).notFound.map
        BlockResult.originalText)) ∧
    ("welcome to the store today" ∉
      ((compareTextDetailed "welcome to the store today" "" [] (7/10)).matched.map
        BlockResult.originalText)) := by
  have h := compareTextDetailed_partition "welcome to the store today" "" []
    "welcome to the store today" (by decide) (by decide)
  constructor
  · exact h.2.2.1.mpr (by decide)
  · intro hmem
    exact absurd (h.1.mp hmem) (by decide)

/-! ### Image alt-tag audit and the overall report status
(`checkImageAltTags`, `formatResultJSON`) -/

/-- An `{src, alt}` image as extracted from the page; `alt := none` models an
`<img>` tag carrying no `alt` attribute at all, `some ""` an explicit
`alt=""`. -/
structure ImageInfo where
  src : String
  alt : Option String
  deriving Repr, DecidableEq

/-- A decimal digit (the `\d` character class). -/
def isDigitCh (c : Char) : Bool := 48 ≤ c.toNat && c.toNat ≤ 57

/-- The decorative-source test of `checkImageAltTags`: the `src` matches one
of the case-insensitive unanchored patterns `spacer`, `pixel`, `tracking`,
`blank\.gif`, `1x1`, `transparent`, `shim` (plain substring tests on the
lowercased src), or contains both `width=1` and `height=1`
(case-sensitive). -/
def isDecorativeSrc (src : String) : Bool :=
  let l := toLowerStr src
  includesStr l "spacer" || includesStr l "pixel" || includesStr l "tracking" ||
  includesStr l "blank.gif" || includesStr l "1x1" ||
  includesStr l "transparent" || includesStr l "shim" ||
  (includesStr src "width=1" && includesStr src "height=1")

/-- `\s*\d+$`: optional whitespace, then at least one digit, then the end. -/
def wsDigitsEnd (l : List Char) : Bool :=
  let r := l.dropWhile jsWs
  !r.isEmpty && r.all isDigitCh

/-- The generic-alt test of `checkImageAltTags`: the (already trimmed) alt
text matches one of the anchored placeholder patterns — the exact words
`image`/`img`/`photo`/`picture`/`banner`/`logo`/`icon`/`spacer`/`pixel`/
`untitled` (case-insensitive), all digits, `image`/`img` then optional
whitespace then digits, `dsc` then digits, a `screenshot` prefix, a bare file
extension `^\.\w+$`, or an `http(s)://` URL.  Every pattern is decided on the
lowercased text; the two patterns without the `i` flag (`^\d+$`, `^\.\w+$`)
use only case-closed character classes, so lowercasing does not change their
outcome. -/
def isGenericAlt (alt : String) : Bool :=
  let l := (toLowerStr alt).toList
  l = "image".toList || l = "img".toList || l = "photo".toList ||
  l = "picture".toList || l = "banner".toList || l = "logo".toList ||
  l = "icon".toList || l = "spacer".toList || l = "pixel".toList ||
  l = "untitled".toList ||
  (!l.isEmpty && l.all isDigitCh) ||
  (startsWithL "image".toList l && wsDigitsEnd (l.drop 5)) ||
  (startsWithL "img".toList l && wsDigitsEnd (l.drop 3)) ||
  (startsWithL "dsc".toList l && !(l.drop 3).isEmpty &&
    (l.drop 3).all isDigitCh) ||
  startsWithL "screenshot".toList l ||
  (match l with
   | '.' :: rest => !rest.isEmpty && rest.all jsWord
   | _ => false) ||
  startsWithL "http://".toList l || startsWithL "https://".toList l

/-- The status `checkImageAltTags` assigns to one image.  `MISSING` requires
`!img.alt && img.alt !== ''`: only an absent attribute (`undefined`) passes,
since the empty string — the one falsy JS string — fails the second test.
A trimmed-empty alt is `OK` on a decorative source and `EMPTY` otherwise;
placeholder text is `GENERIC`; anything else is `OK`. -/
def classifyImageAlt (img : ImageInfo) : String :=
  let alt := trimWsStr (img.alt.getD "")
  match img.alt with
  | none => "MISSING"
  | some _ =>
    if alt = "" then (if isDecorativeSrc img.src then "OK" else "EMPTY")
    else if isGenericAlt alt then "GENERIC"
    else "OK"

/-- The `summary` object of `checkImageAltTags`. -/
structure AltSummary where
  totalImages : Nat
  missingAlt : Nat
  emptyAlt : Nat
  genericAlt : Nat
  validAlt : Nat
  issueCount : Nat
  status : String
  deriving Repr, DecidableEq

/-- The summary of `checkImageAltTags` (the per-row report fields —
`srcLabel`, `message`, `severity` — never feed the overall verdict and are
not modelled): count the statuses, an issue is anything but `OK`, and the
summary status is `PASS` with no issues, `FAIL` with a missing alt,
`WARNING` otherwise. -/
def checkImageAltTags (images : List ImageInfo) : AltSummary :=
  let sts := images.map classifyImageAlt
  let missingCount := (sts.filter (fun s => s = "MISSING")).length
  let emptyCount := (sts.filter (fun s => s = "EMPTY")).length
  let genericCount := (sts.filter (fun s => s = "GENERIC")).length
  let validCount := (sts.filter (fun s => s = "OK")).length
  let issueCount := missingCount + emptyCount + genericCount
  { totalImages := images.length, missingAlt := missingCount,
    emptyAlt := emptyCount, genericAlt := genericCount,
    validAlt := validCount, issueCount := issueCount,
    status := if issueCount = 0 then "PASS"
      else if missingCount > 0 then "FAIL" else "WARNING" }

/-- The fields of the `/qa` result data that `formatResultJSON` consults for
the overall status (`grammarCheck`, `responsive`, `emailHtml`, … are echoed
into the report but never feed the verdict). -/
structure QAData where
  textComparison : TextComparison
  linkReport : List LinkReportEntry
  missingDocLinks : List LinkInfo
  imageAltCheck : Option AltSummary
  deriving Repr, DecidableEq

/-- Property access `n.length` on a JavaScript Number: numbers have no
`length` property, so the access yields `undefined`. -/
def numberLength (_ : Nat) : Option Nat := none

/-- The JavaScript comparison `x > 0` where `x` may be `undefined`:
`undefined` coerces to `NaN` and every comparison involving `NaN` is
false. -/
def jsGtZero : Option Nat → Bool
  | none => false
  | some n => decide (0 < n)

/-- `hasTextIssues` from `formatResultJSON`:
`data.textComparison.summary.notFound.length > 0`.  `summary.notFound` is the
NUMBER of not-found blocks (so named in `compareTextDetailed`'s summary), so
the `.length` access yields `undefined` and the comparison is always
false. -/
def hasTextIssues (d : QAData) : Bool :=
  jsGtZero (numberLength d.textComparison.summary.notFound)

/-- The `overallStatus` field computed by `formatResultJSON`:
`hasTextIssues || hasMissingLinks || hasAltIssues` decides FAIL, where the
alt disjunct is guarded by `data.imageAltCheck &&` (an absent check is
falsy). -/
def overallStatus (d : QAData) : String :=
  let hasMissingLinks := decide (0 < d.missingDocLinks.length)
  let hasAltIssues := match d.imageAltCheck with
    | none => false
    | some c => decide (0 < c.missingAlt)
  if hasTextIssues d || hasMissingLinks || hasAltIssues then "FAIL" else "PASS"

/-- The overall status as claim C1 words it, modelled from the spec: FAIL
exactly when some reference block is classified NOT FOUND, or some document
link is reported missing, or some image's alt attribute is entirely
absent. -/
def overallStatusClaimed (d : QAData) : String :=
  let hasAltIssues := match d.imageAltCheck with
    | none => false
    | some c => decide (0 < c.missingAlt)
  if decide (0 < d.textComparison.summary.notFound) ||
     decide (0 < d.missingDocLinks.length) || hasAltIssues
  then "FAIL" else "PASS"

/-- The report data the `/qa` endpoint assembles: the detailed text
comparison at the default threshold `0.7`, the link report and missing-link
list from `compareLinks`, and the image alt check. -/
def qaData (docText emailText : String) (ps : List String)
    (docLinks emailLinks : List LinkInfo) (images : List ImageInfo) : QAData :=
  let tc := compareTextDetailed docText emailText ps (7/10)
  let lr := compareLinks docLinks emailLinks
  { textComparison := tc, linkReport := lr.1, missingDocLinks := lr.2,
    imageAltCheck := some (checkImageAltTags images) }

/-- **C1.**  `formatResultJSON` never fails on text issues: `hasTextIssues`
reads `.length` off the NUMBER `summary.notFound`, the access yields
`undefined`, and `undefined > 0` is false — so the flag is constantly false
for every input.  On the failing input — document text
`"the quick brown fox jumps today"` against an empty email with no links and
no images — one reference block is classified NOT FOUND and the claimed
status is FAIL, yet the code reports PASS.  The other two disjuncts do work:
a single image with an absent alt attribute alone yields FAIL. -/
theorem overallStatus_ignores_notFound :
    (∀ d : QAData, hasTextIssues d = false) ∧
    (qaData "the quick brown fox jumps today" "" [] [] []
      []).textComparison.summary.notFound = 1 ∧
    overallStatus (qaData "the quick brown fox jumps today" "" [] [] [] []) =
      "PASS" ∧
    overallStatusClaimed
      (qaData "the quick brown fox jumps today" "" [] [] [] []) = "FAIL" ∧
    (checkImageAltTags
      [{ src := "https://a.com/img.png", alt := none }]).missingAlt = 1 ∧
    overallStatus (qaData "" "" [] [] []
      [{ src := "https://a.com/img.png", alt := none }]) = "FAIL" :=
  ⟨fun _ => rfl, by decide, by decide, by decide, by decide, by decide⟩

end NM
